import Mathlib

/-!
The request signer of wxpay

A shallow embedding of the reflection-driven request signer of `wxpay.go`
(`parseXMLTag`, `parseXMLTag2`, `Client.sign`, `Client.HmacSha256`,
`Client.injectRequest`, `Client.signRequest`, `Client.request`, `getNonceStr`)
and the properties of it that the specification states.

Modelling conventions.

* A Go `string` is a Lean `String`; the byte-wise order of `sort.Strings` is the
  lexicographic order of `String` (UTF-8 keeps the order of code points).
* A Go value seen through `reflect` is a `Value`: a struct carries its type name
  and its fields in declaration order, a pointer is either `ptr v` or `nilPtr`,
  everything else is `nonStruct`.  The model covers structs whose named fields
  are exported (the only ones `Value.Interface` can read and `encoding/xml` can
  serialise); `time.Time`, whose fields are unexported, therefore occurs as the
  value of a named field only.
* A named field holds a `FieldValue`: what the type switch of the extractor
  distinguishes (`string`, `int`, `time.Time`, anything else).  A `time.Time` is
  its wall-clock reading, in the years 0 to 9999.
* A Go `error` result is an `Option String` (`none` is `nil`).
* A run-time panic of `reflect` (or of slicing) is the `none` of an `Option`
  result.
* The digest functions (`crypto/hmac` with `crypto/sha256`, `crypto/md5`) and the
  random source (`math/rand`) are parameters.
-/

namespace Wxpay

/-! ## Data model -/

/-- The wall-clock reading of a `time.Time` in its own location.  The model
covers the years 0 to 9999, the years that have a form `YYYY`. -/
structure Time where
  year : Fin 10000
  month : Fin 13
  day : Fin 32
  hour : Fin 24
  minute : Fin 60
  second : Fin 60
deriving DecidableEq, Repr

/-- A named struct field by its type and value, as far as the type switch
`switch converted := fieldValue.(type)` tells fields apart: a field of type
`string`, of type `int`, of type `time.Time`, or of any other type `ty`.  Not
modelled are a field of an interface type (the type switch looks at what the
interface holds) and a field of a defined type with the underlying type
`string` (its kind is `String`, its type is not `string`); no type of the
package has such a field. -/
inductive FieldValue where
  | str (s : String)
  | int (n : Int)
  | time (t : Time)
  | other (ty : String)
deriving DecidableEq, Repr

mutual
/-- A Go value as `reflect` sees it.  `nonStruct ty` is a value whose kind is
neither `Struct` nor `Ptr` (a string, an int, a map, a slice, an interface, the
zero `reflect.Value`); `nilPtr proto` is a nil pointer whose element type is the
type of `proto`. -/
inductive Value where
  | nonStruct (ty : String)
  | struct (ty : String) (fs : Fields)
  | ptr (v : Value)
  | nilPtr (proto : Value)
/-- The fields of a struct in declaration order.  `named name tag v` is a field
`name` whose `xml` struct tag is `tag`; `embedded name tag v` is an anonymous
field (its name is the name of its type). -/
inductive Fields where
  | nil
  | named (name : String) (tag : String) (v : FieldValue) (rest : Fields)
  | embedded (name : String) (tag : String) (v : Value) (rest : Fields)
end

/-- The struct `linkValues`: the keys in insertion order, and the Go map
`values` as an association list in which the newest binding of a key comes
first. -/
structure linkValues where
  keys : List String
  values : List (String × String)
deriving DecidableEq, Repr

/-- Reading the Go map: `m[k]`, the zero value `""` when `k` is absent. -/
def mapGet (m : List (String × String)) (k : String) : String :=
  (m.lookup k).getD ""

/-- The struct `BaseRequest` (its `XMLName` holds no data that is signed). -/
structure BaseRequest where
  Sign : String
  SignType : String
  NonceStr : String
deriving DecidableEq, Repr

/-- The fields of `Client` that signing reads. -/
structure Client where
  AppID : String
  MchID : String
  ApiKey : String
deriving DecidableEq, Repr

/-- The digest functions, taken as given: `hmacSha256 key msg` is the 32 bytes
that `hmac.New(sha256.New, key)` returns for `msg`, `md5Sum msg` the 16 bytes of
`md5.Sum(msg)`. -/
structure Digests where
  hmacSha256 : String → String → List (Fin 256)
  md5Sum : String → List (Fin 256)
  hmacSha256_length : ∀ key msg, (hmacSha256 key msg).length = 32
  md5Sum_length : ∀ msg, (md5Sum msg).length = 16

/-! ## Library functions -/

/-- The pieces of a text between its commas, as characters: the work of
`strings.Split(s, ",")`. -/
def splitComma : List Char → List (List Char)
  | [] => [[]]
  | c :: rest =>
    if c = ',' then [] :: splitComma rest
    else
      match splitComma rest with
      | [] => [[c]]
      | piece :: pieces => (c :: piece) :: pieces

/-- The call `strings.Split(s, ",")`. -/
def Split (s : String) : List String :=
  (splitComma s.data).map String.mk

/-- The expression `strings.Split(f.Tag.Get("xml"), ",")[0]`, for a field whose
`xml` struct tag is `tag` (`Split` never returns an empty slice). -/
def tagName (tag : String) : String :=
  (Split tag).headD ""

/-- The function `strconv.Itoa`. -/
def Itoa (n : Int) : String :=
  match n with
  | Int.ofNat m => Nat.repr m
  | Int.negSucc m => "-" ++ Nat.repr (m + 1)

/-- The byte `'0' + u` of a decimal digit. -/
def digitByte (u : Nat) : Char :=
  Char.ofNat (48 + u)

/-- The loop of `appendInt` in package `time` that assembles the decimal digits
of `u` from the last one to the first one, in a buffer of 20 bytes (the first
argument counts the bytes that are left). -/
def appendIntDigits : Nat → Nat → List Char → List Char
  | 0, u, buf => digitByte u :: buf
  | room + 1, u, buf =>
    if 10 ≤ u then appendIntDigits room (u / 10) (digitByte (u - u / 10 * 10) :: buf)
    else digitByte u :: buf

/-- The function `appendInt` of package `time` for an operand that is not
negative: the decimal digits of `x`, with zeros in front up to `width`. -/
def appendInt (x width : Nat) : String :=
  String.mk (List.replicate (width - (appendIntDigits 20 x []).length) '0' ++
    appendIntDigits 20 x [])

/-- The scan of a layout by `Time.Format`: the elements `2006` (year), `01`
(month), `02` (day), `15` (hour), `04` (minute) and `05` (second) are replaced by
the reading of the clock, every other character stands for itself.  The other
elements that `Format` knows do not occur in the layout of the extractor and are
not modelled. -/
def formatLayout (t : Time) : List Char → String
  | '2' :: '0' :: '0' :: '6' :: rest => appendInt t.year 4 ++ formatLayout t rest
  | '0' :: '1' :: rest => appendInt t.month 2 ++ formatLayout t rest
  | '0' :: '2' :: rest => appendInt t.day 2 ++ formatLayout t rest
  | '1' :: '5' :: rest => appendInt t.hour 2 ++ formatLayout t rest
  | '0' :: '4' :: rest => appendInt t.minute 2 ++ formatLayout t rest
  | '0' :: '5' :: rest => appendInt t.second 2 ++ formatLayout t rest
  | c :: rest => String.mk [c] ++ formatLayout t rest
  | [] => ""

/-- The method `Time.Format`. -/
def Time.Format (t : Time) (layout : String) : String :=
  formatLayout t layout.data

/-- The type switch of the extractor: the string of a `string`, `int` or
`time.Time` field, `none` for the `default` branch. -/
def fieldStrValue : FieldValue → Option String
  | .str s => some s
  | .int n => some (Itoa n)
  | .time t => some (t.Format "2006-01-02 15:04:05")
  | .other _ => none

/-- The call `sort.Strings`: ascending in the lexicographic order of the
characters (for UTF-8 text, the order of the bytes). -/
def sortStrings (keys : List String) : List String :=
  keys.insertionSort (fun a b => a.data ≤ b.data)

/-- One lower-case hexadecimal digit. -/
def hexDigit (n : Nat) : Char :=
  ("0123456789abcdef".data).getD n '0'

/-- The function `hex.EncodeToString`. -/
def hexEncodeToString (bs : List (Fin 256)) : String :=
  String.mk (bs.flatMap (fun b => [hexDigit (b.val / 16), hexDigit (b.val % 16)]))

/-- The function `strings.ToUpper` on ASCII text (all it is applied to here is
hexadecimal digits). -/
def toUpper (s : String) : String :=
  String.mk (s.data.map Char.toUpper)

/-- The slice expression `s[lo:hi]`, which panics outside `0 ≤ lo ≤ hi ≤ len(s)`. -/
def slice (s : String) (lo hi : Nat) : Option String :=
  if lo ≤ hi ∧ hi ≤ s.length then some (String.mk ((s.data.drop lo).take (hi - lo))) else none

/-- The call `rand.Intn(n)` when the random source delivers `draw`: a number
of `[0, n)`, and every number of `[0, n)` is the result for some `draw`. -/
def Intn (draw n : Nat) : Nat :=
  draw % n

/-! ## The extractors -/

mutual
/-- The function `parseXMLTag`: the updated `linkValues` and the error. -/
def parseXMLTag (lv : linkValues) : Value → linkValues × Option String
  | .ptr v => parseXMLTag lv v
  | .nilPtr _ => (lv, some "must struct")
  | .nonStruct _ => (lv, some "must struct")
  | .struct _ fs => (parseXMLTagFields lv fs, none)
/-- The loop of `parseXMLTag` over the fields of the struct. -/
def parseXMLTagFields (lv : linkValues) : Fields → linkValues
  | .nil => lv
  | .embedded _ _ v rest => parseXMLTagFields (parseXMLTag lv v).1 rest
  | .named _ tag v rest =>
    let name := tagName tag
    if name = "" ∨ name = "sign" then parseXMLTagFields lv rest
    else
      match fieldStrValue v with
      | none => parseXMLTagFields lv rest
      | some s => parseXMLTagFields ⟨lv.keys ++ [name], (name, s) :: lv.values⟩ rest
end

mutual
/-- The function `parseXMLTag2`. -/
def parseXMLTag2 (lv : linkValues) : Value → linkValues × Option String
  | .ptr v => parseXMLTag2 lv v
  | .nilPtr _ => (lv, some "must struct")
  | .nonStruct _ => (lv, some "must struct")
  | .struct _ fs => (parseXMLTag2Fields lv fs, none)
/-- The loop of `parseXMLTag2` over the fields of the struct. -/
def parseXMLTag2Fields (lv : linkValues) : Fields → linkValues
  | .nil => lv
  | .embedded _ _ v rest => parseXMLTag2Fields (parseXMLTag2 lv v).1 rest
  | .named _ tag v rest =>
    let name := tagName tag
    match fieldStrValue v with
    | none => parseXMLTag2Fields lv rest
    | some s => parseXMLTag2Fields ⟨lv.keys ++ [name], (name, s) :: lv.values⟩ rest
end

/-! ## Signing -/

/-- The method `Client.HmacSha256`. -/
def HmacSha256 (d : Digests) (str : String) (key : String) : String :=
  toUpper (hexEncodeToString (d.hmacSha256 key str))

/-- The buffer `bf` of `Client.sign` once the loop over the sorted keys and the
two writes of `"key="` and the secret are done: the bytes that are digested. -/
def signBase (c : Client) (lv : linkValues) : String :=
  (sortStrings lv.keys).foldl
    (fun bf v => bf ++ v ++ "=" ++ mapGet lv.values v ++ "&") "" ++ "key=" ++ c.ApiKey

/-- The method `Client.sign`. -/
def sign (d : Digests) (c : Client) (val : Value) (signType : String) :
    String × Option String :=
  match parseXMLTag ⟨[], []⟩ val with
  | (_, some err) => ("", some err)
  | (lv, none) =>
    let bf := signBase c lv
    let res :=
      if signType = "HMAC-SHA256" then HmacSha256 d bf c.ApiKey
      else hexEncodeToString (d.md5Sum bf)
    (toUpper res, none)

/-! ## The nonce -/

/-- The alphabet `chars` of `getNonceStr`. -/
def chars : String := "abcdefghijklmnopqrstuvwxyz0123456789"

/-- The loop of `getNonceStr` from iteration `i` for `n` more iterations; `rnd j`
is what the random source delivers to the `j`-th call of `rand.Intn`. -/
def getNonceStrLoop (rnd : Nat → Nat) : Nat → Nat → String → Option String
  | 0, _, nonceStr => some nonceStr
  | n + 1, i, nonceStr =>
    let idx := Intn (rnd i) (chars.length - 1)
    match slice chars idx (idx + 1) with
    | none => none
    | some piece => getNonceStrLoop rnd n (i + 1) (nonceStr ++ piece)

/-- The function `getNonceStr`. -/
def getNonceStr (rnd : Nat → Nat) : Option String :=
  getNonceStrLoop rnd 32 0 ""

/-- The method `Client.request`: a fresh envelope that holds a new nonce. -/
def request (rnd : Nat → Nat) : Option BaseRequest :=
  (getNonceStr rnd).map (fun nonceStr => ⟨"", "", nonceStr⟩)

/-! ## Injection of the envelope -/

/-- The name of the Go type of a value. -/
def typeName : Value → String
  | .nonStruct ty => ty
  | .struct ty _ => ty
  | .ptr v => "*" ++ typeName v
  | .nilPtr proto => "*" ++ typeName proto

/-- The variable `reqType`: `reflect.TypeOf(&BaseRequest{})`. -/
def reqType : String := "*BaseRequest"

/-- A `BaseRequest` as a `reflect` value. -/
def BaseRequest.toValue (r : BaseRequest) : Value :=
  .struct "BaseRequest"
    (.named "XMLName" "xml" (.other "xml.Name")
      (.named "Sign" "sign" (.str r.Sign)
        (.named "SignType" "sign_type" (.str r.SignType)
          (.named "NonceStr" "nonce_str" (.str r.NonceStr) .nil))))

/-- The positions, counted from `i`, of the fields called `name`. -/
def Fields.indicesOf (name : String) : Fields → Nat → List Nat
  | .nil, _ => []
  | .named n _ _ rest, i =>
    if n = name then i :: rest.indicesOf name (i + 1) else rest.indicesOf name (i + 1)
  | .embedded n _ _ rest, i =>
    if n = name then i :: rest.indicesOf name (i + 1) else rest.indicesOf name (i + 1)

/-- The anonymous fields whose type is a struct or a pointer to a struct, each
with its position (counted from `i`) and the fields of that struct type. -/
def Fields.embeddedStructs : Fields → Nat → List (Nat × Fields)
  | .nil, _ => []
  | .named _ _ _ rest, i => rest.embeddedStructs (i + 1)
  | .embedded _ _ (.struct _ fs) rest, i => (i, fs) :: rest.embeddedStructs (i + 1)
  | .embedded _ _ (.ptr (.struct _ fs)) rest, i => (i, fs) :: rest.embeddedStructs (i + 1)
  | .embedded _ _ (.nilPtr (.struct _ fs)) rest, i => (i, fs) :: rest.embeddedStructs (i + 1)
  | .embedded _ _ _ rest, i => rest.embeddedStructs (i + 1)

mutual
/-- The depth to which structs are embedded in a value. -/
def Value.depth : Value → Nat
  | .nonStruct _ => 0
  | .struct _ fs => fs.depth + 1
  | .ptr v => v.depth
  | .nilPtr proto => proto.depth
/-- The depth to which structs are embedded in the fields of a struct. -/
def Fields.depth : Fields → Nat
  | .nil => 0
  | .named _ _ _ rest => rest.depth
  | .embedded _ _ v rest => max v.depth rest.depth
end

/-- The search of `reflect.Type.FieldByName`, one level of embedding after the
other: a level is the list of the structs embedded at that depth, each with the
index sequence that leads to it.  A name found once at the first level that has
it is the result; a name found twice at that level is ambiguous and not found. -/
def fieldByNameLevels (name : String) : Nat → List (List Nat × Fields) → Option (List Nat)
  | 0, _ => none
  | fuel + 1, level =>
    match level.flatMap (fun x => (x.2.indicesOf name 0).map (fun i => x.1 ++ [i])) with
    | [index] => some index
    | _ :: _ :: _ => none
    | [] =>
      fieldByNameLevels name fuel
        (level.flatMap (fun x => (x.2.embeddedStructs 0).map (fun y => (x.1 ++ [y.1], y.2))))

/-- The index sequence that `FieldByName(name)` finds in a struct with these
fields, `none` when there is no such field. -/
def fieldByName (fs : Fields) (name : String) : Option (List Nat) :=
  fieldByNameLevels name (fs.depth + 1) [([], fs)]

mutual
/-- The call `v.FieldByIndex(index).SetString(s)` on a struct with these fields:
the fields after the store, `none` for a panic (a nil embedded pointer on the
way, a field that is not a string, a field that cannot be set because the struct
is not addressable). -/
def setStringFields (s : String) (addr : Bool) : List Nat → Fields → Option Fields
  | [], _ => none
  | _ :: _, .nil => none
  | [0], .named n t v rest =>
    match v with
    | .str _ => if addr then some (.named n t (.str s) rest) else none
    | _ => none
  | 0 :: _ :: _, .named _ _ _ _ => none
  | [0], .embedded _ _ _ _ => none
  | 0 :: j :: index, .embedded n t v rest =>
    (setStringValue s addr (j :: index) v).map (fun w => .embedded n t w rest)
  | (i + 1) :: index, .named n t v rest =>
    (setStringFields s addr (i :: index) rest).map (fun r => .named n t v r)
  | (i + 1) :: index, .embedded n t v rest =>
    (setStringFields s addr (i :: index) rest).map (fun r => .embedded n t v r)
/-- The same store below an embedded member: a pointer to a struct is followed
(what it points to is addressable), a nil pointer panics. -/
def setStringValue (s : String) (addr : Bool) (index : List Nat) : Value → Option Value
  | .struct ty fs => (setStringFields s addr index fs).map (fun r => .struct ty r)
  | .ptr v =>
    match v with
    | .struct ty fs => (setStringFields s true index fs).map (fun r => .ptr (.struct ty r))
    | _ => none
  | .nilPtr _ => none
  | .nonStruct _ => none
end

/-- The statement `if field := val.FieldByName(name); field != emptyValue
{ field.SetString(s) }`. -/
def setFieldByName (addr : Bool) (name s : String) (fs : Fields) : Option Fields :=
  match fieldByName fs name with
  | none => some fs
  | some index => setStringFields s addr index fs

/-- Whether a field of the struct itself is anonymous and of type `reqType`. -/
def hasEnvelope : Fields → Bool
  | .nil => false
  | .named _ _ _ rest => hasEnvelope rest
  | .embedded _ _ v rest => typeName v = reqType || hasEnvelope rest

/-- The fields after `req` is stored in every anonymous field of type
`reqType`. -/
def setEnvelope (req : BaseRequest) : Fields → Fields
  | .nil => .nil
  | .named n t v rest => .named n t v (setEnvelope req rest)
  | .embedded n t v rest =>
    if typeName v = reqType then .embedded n t (.ptr req.toValue) (setEnvelope req rest)
    else .embedded n t v (setEnvelope req rest)

/-- The body of `Client.injectRequest` on a struct with these fields; `addr` says
whether the struct is addressable (it was reached through a pointer).
`Value.Set` panics on a field of a struct that is not addressable. -/
def injectFields (c : Client) (req : BaseRequest) (addr : Bool) (fs : Fields) :
    Option Fields :=
  match setFieldByName addr "AppID" c.AppID fs with
  | none => none
  | some fs1 =>
    match setFieldByName addr "MchID" c.MchID fs1 with
    | none => none
    | some fs2 => if hasEnvelope fs2 && !addr then none else some (setEnvelope req fs2)

/-- The method `Client.injectRequest` after `addr` pointers have been followed:
the request after the stores, `none` when `reflect` panics (`Type` on the zero
value that a nil pointer leads to, `FieldByName` on a value that is no struct). -/
def injectRequestFrom (c : Client) (req : BaseRequest) : Bool → Value → Option Value
  | _, .ptr v => (injectRequestFrom c req true v).map (fun w => .ptr w)
  | addr, .struct ty fs => (injectFields c req addr fs).map (fun r => .struct ty r)
  | _, .nilPtr _ => none
  | _, .nonStruct _ => none

/-- The method `Client.injectRequest`. -/
def injectRequest (c : Client) (val : Value) (req : BaseRequest) : Option Value :=
  injectRequestFrom c req false val

/-- The request once `sig` is stored in `req.Sign`: the envelope is shared with
the anonymous fields that `injectRequest` has pointed at it. -/
def storeSign (req : BaseRequest) (sig : String) : Value → Value
  | .ptr v => .ptr (storeSign req sig v)
  | .struct ty fs => .struct ty (setEnvelope { req with Sign := sig } fs)
  | .nilPtr proto => .nilPtr proto
  | .nonStruct ty => .nonStruct ty

/-- The method `Client.signRequest`: the request after the call and the error
returned, `none` when the call panics. -/
def signRequest (d : Digests) (c : Client) (rnd : Nat → Nat) (request : Value)
    (signType : String) : Option (Value × Option String) :=
  match Wxpay.request rnd with
  | none => none
  | some req0 =>
    let req : BaseRequest := { req0 with SignType := signType }
    match injectRequest c request req with
    | none => none
    | some val =>
      let r := sign d c val signType
      some (storeSign req r.1 val, r.2)

/-- The start of `Client.send` and of `Client.sendNoCert`, up to the call of
`xml.Marshal`: the request that is handed to the serialiser (`none` when signing
panics).  The result of `signRequest` is not looked at. -/
def send (d : Digests) (c : Client) (rnd : Nat → Nat) (req : Value) : Option Value :=
  match signRequest d c rnd req "HMAC-SHA256" with
  | none => none
  | some r => some r.1

/-- The assignment `m[k] = v` on a Go map given as the list of its bindings: the
binding of `k` is replaced, so that a key has one binding. -/
def mapSet (m : List (String × String)) (k v : String) : List (String × String) :=
  (k, v) :: m.filter (fun e => decide (e.1 ≠ k))

/-- The method `Client.format`: the map it returns, as the list of its bindings
(one for each key). -/
def format (request : Value) : List (String × String) :=
  match parseXMLTag2 ⟨[], []⟩ request with
  | (_, some _) => []
  | (lv, none) => (sortStrings lv.keys).foldl (fun m v => mapSet m v (mapGet lv.values v)) []

/-- The envelope that the first anonymous field of type `reqType` points to. -/
def envelopeOf : Fields → Option Value
  | .nil => none
  | .named _ _ _ rest => envelopeOf rest
  | .embedded _ _ v rest => if typeName v = reqType then some v else envelopeOf rest

/-- The characters a nonce is drawn from: the alphabet without its last one. -/
def drawnChars : List Char := "abcdefghijklmnopqrstuvwxyz012345678".data

/-! ## Reference definitions, written from the specification -/

/-- Whether a value is a struct once all pointers are followed. -/
def derefIsStruct : Value → Bool
  | .ptr v => derefIsStruct v
  | .struct _ _ => true
  | .nilPtr _ => false
  | .nonStruct _ => false

/-- The base-10 rendering of an integer: a leading `-` for a negative number, no
grouping, no padding. -/
def decimal (n : Int) : String :=
  if n < 0 then "-" ++ Nat.repr n.natAbs else Nat.repr n.natAbs

/-- The wire name of a field: the part of its `xml` tag before the first
comma. -/
def wireName (tag : String) : String :=
  String.mk (tag.data.takeWhile (fun c => c != ','))

/-- The decimal digit in the last place of a number. -/
def decimalDigit (n : Nat) : Char :=
  ("0123456789".data).getD (n % 10) '0'

/-- A number below 100 in two decimal digits. -/
def twoDigits (n : Nat) : String :=
  String.mk [decimalDigit (n / 10), decimalDigit n]

/-- A number below 10000 in four decimal digits. -/
def fourDigits (n : Nat) : String :=
  String.mk [decimalDigit (n / 1000), decimalDigit (n / 100), decimalDigit (n / 10),
    decimalDigit n]

/-- A timestamp in the form `YYYY-MM-DD HH:MM:SS`. -/
def timestamp (t : Time) : String :=
  fourDigits t.year ++ "-" ++ twoDigits t.month ++ "-" ++ twoDigits t.day ++ " " ++
    twoDigits t.hour ++ ":" ++ twoDigits t.minute ++ ":" ++ twoDigits t.second

/-- The text of a scalar field in the reference mapping: the string itself, the
integer in base 10, the timestamp as `YYYY-MM-DD HH:MM:SS`; nothing for a field
of any other type. -/
def scalarText : FieldValue → Option String
  | .str s => some s
  | .int n => some (decimal n)
  | .time t => some (timestamp t)
  | .other _ => none

mutual
/-- The reference mapping of the full variant, as the list of its entries in
declaration order: one entry for each text, integer or timestamp field declared
in the struct or in a struct embedded in it at any depth. -/
def refEntriesFull : Value → List (String × String)
  | .ptr v => refEntriesFull v
  | .struct _ fs => refFieldsFull fs
  | .nilPtr _ => []
  | .nonStruct _ => []
/-- The entries of the full reference mapping that the fields of a struct
contribute. -/
def refFieldsFull : Fields → List (String × String)
  | .nil => []
  | .named _ tag v rest =>
    match scalarText v with
    | some s => (wireName tag, s) :: refFieldsFull rest
    | none => refFieldsFull rest
  | .embedded _ _ v rest => refEntriesFull v ++ refFieldsFull rest
end

/-- The reference mapping of the signing variant: the entries of the full one
whose wire name is neither empty nor `sign`. -/
def refEntries (v : Value) : List (String × String) :=
  (refEntriesFull v).filter (fun e => decide (e.1 ≠ "" ∧ e.1 ≠ "sign"))

/-- The entries that the fields of a struct contribute to the signing variant. -/
def refFields (fs : Fields) : List (String × String) :=
  (refFieldsFull fs).filter (fun e => decide (e.1 ≠ "" ∧ e.1 ≠ "sign"))

/-- The concatenation of a list of strings. -/
def concatAll : List String → String
  | [] => ""
  | s :: rest => s ++ concatAll rest

/-- The canonical base string of a mapping and a secret: for each entry, in
ascending order of the names, `name=value&`, then `key=` and the secret. -/
def canonicalBase (entries : List (String × String)) (k : String) : String :=
  concatAll ((entries.insertionSort (fun a b => a.1.data ≤ b.1.data)).map
    (fun e => e.1 ++ "=" ++ e.2 ++ "&")) ++ "key=" ++ k

/-- One upper-case hexadecimal digit. -/
def upperHexDigit (n : Nat) : Char :=
  ("0123456789ABCDEF".data).getD n '0'

/-- The upper-cased hexadecimal encoding of a digest. -/
def upperHex (bs : List (Fin 256)) : String :=
  String.mk (bs.flatMap (fun b => [upperHexDigit (b.val / 16), upperHexDigit (b.val % 16)]))

/-! ## Concrete values -/

/-- A stand-in for the digest functions, for evaluating the signer on concrete
requests: digests that depend on the lengths of the key and of the message. -/
def toyDigests : Digests where
  hmacSha256 := fun key msg =>
    List.replicate 32 ⟨(key.length * 16 + msg.length) % 256, Nat.mod_lt _ (by decide)⟩
  md5Sum := fun msg => List.replicate 16 ⟨(msg.length + 171) % 256, Nat.mod_lt _ (by decide)⟩
  hmacSha256_length := by simp
  md5Sum_length := by simp

/-- A client. -/
def exampleClient : Client := ⟨"wxapp", "1900", "K"⟩

/-- The zero value of `BaseRequest`. -/
def zeroBaseRequest : Value := BaseRequest.toValue ⟨"", "", ""⟩

/-- The value `RefundRequest{OutTradeNo: "T1", TotalFee: 100, RefundFee: 50}`:
the embedded `*BaseRequest` is nil and the other fields are empty. -/
def exampleRefund : Value :=
  .struct "RefundRequest"
    (.embedded "BaseRequest" "" (.nilPtr zeroBaseRequest)
      (.named "AppID" "appid" (.str "")
        (.named "MchID" "mch_id" (.str "")
          (.named "OutTradeNo" "out_trade_no" (.str "T1")
            (.named "OutRefundNo" "out_refund_no" (.str "")
              (.named "TotalFee" "total_fee" (.int 100)
                (.named "RefundFee" "refund_fee" (.int 50)
                  (.named "RefundDesc" "refund_desc" (.str "") .nil))))))))

/-- A request with fields of every sort: an embedded envelope that is filled in,
text, a negative integer, a timestamp, fields of types the extractor passes over
(`[]byte`, `bool`, `int64`, a named struct), a field without a wire name and a
field whose tag has options. -/
def exampleMixed : Value :=
  .struct "MixedRequest"
    (.embedded "BaseRequest" "" (.ptr (BaseRequest.toValue ⟨"0F0F", "MD5", "n0nce"⟩))
      (.named "AppID" "mch_appid" (.str "wxapp")
        (.named "Amount" "amount,omitempty" (.int (-5))
          (.named "Created" "created" (.time ⟨2024, 3, 9, 7, 5, 0⟩)
            (.named "Raw" "raw" (.other "[]uint8")
              (.named "Flag" "flag" (.other "bool")
                (.named "Big" "big" (.other "int64")
                  (.named "Meta" "meta" (.other "xml.Name")
                    (.named "Note" "" (.str "memo") .nil)))))))))

/-- A request whose signable fields are `A: "1"` and `B: "2"`, declared in this
order. -/
def requestAB : Value :=
  .struct "AB" (.named "A" "A" (.str "1") (.named "B" "B" (.str "2") .nil))

/-- The same fields, `B` declared before `A`. -/
def requestBA : Value :=
  .struct "BA" (.named "B" "B" (.str "2") (.named "A" "A" (.str "1") .nil))

mutual
/-- Whether two values are equal except for what is stored in named fields with
the wire name `sign`. -/
def eqExceptSign : Value → Value → Bool
  | .nonStruct a, .nonStruct b => decide (a = b)
  | .struct a fs, .struct b gs => decide (a = b) && eqExceptSignFields fs gs
  | .ptr v, .ptr w => eqExceptSign v w
  | .nilPtr p, .nilPtr q => eqExceptSign p q
  | _, _ => false
/-- Whether two field lists are equal except for what is stored in named fields
with the wire name `sign`. -/
def eqExceptSignFields : Fields → Fields → Bool
  | .nil, .nil => true
  | .named n t v r, .named n' t' v' r' =>
    decide (n = n') && decide (t = t') && (decide (wireName t = "sign") || decide (v = v'))
      && eqExceptSignFields r r'
  | .embedded n t v r, .embedded n' t' v' r' =>
    decide (n = n') && decide (t = t') && eqExceptSign v v' && eqExceptSignFields r r'
  | _, _ => false
end

/-- The request `exampleMixed` with another signature stored in its envelope. -/
def exampleMixedResigned : Value :=
  .struct "MixedRequest"
    (.embedded "BaseRequest" "" (.ptr (BaseRequest.toValue ⟨"A1B2C3", "MD5", "n0nce"⟩))
      (.named "AppID" "mch_appid" (.str "wxapp")
        (.named "Amount" "amount,omitempty" (.int (-5))
          (.named "Created" "created" (.time ⟨2024, 3, 9, 7, 5, 0⟩)
            (.named "Raw" "raw" (.other "[]uint8")
              (.named "Flag" "flag" (.other "bool")
                (.named "Big" "big" (.other "int64")
                  (.named "Meta" "meta" (.other "xml.Name")
                    (.named "Note" "" (.str "memo") .nil)))))))))

mutual
/-- Whether a named field with this `xml` tag and this value is declared in the
struct or in a struct embedded in it at any depth (as a struct or behind a
pointer that is not nil). -/
def hasField (tag : String) (x : FieldValue) : Value → Bool
  | .ptr v => hasField tag x v
  | .struct _ fs => hasFieldIn tag x fs
  | .nilPtr _ => false
  | .nonStruct _ => false
/-- Whether a named field with this `xml` tag and this value is among these
fields or in a struct embedded in them at any depth. -/
def hasFieldIn (tag : String) (x : FieldValue) : Fields → Bool
  | .nil => false
  | .named _ t w rest => (decide (t = tag) && decide (w = x)) || hasFieldIn tag x rest
  | .embedded _ _ v rest => hasField tag x v || hasFieldIn tag x rest
end

/-- The fields `fs` followed by the fields `gs`. -/
def Fields.append : Fields → Fields → Fields
  | .nil, gs => gs
  | .named n t v rest, gs => .named n t v (rest.append gs)
  | .embedded n t v rest, gs => .embedded n t v (rest.append gs)

/-- A request that is not yet enriched: the envelope it embeds holds an empty
`SignType`. -/
def exampleUnsigned : Value :=
  .struct "RefundRequest"
    (.embedded "BaseRequest" "" (.ptr (BaseRequest.toValue ⟨"", "", "n0nce"⟩))
      (.named "AppID" "appid" (.str "wxapp")
        (.named "OutTradeNo" "out_trade_no" (.str "T1") .nil)))

/-- The fields of `exampleUnsigned`. -/
def exampleUnsignedFields : Fields :=
  match exampleUnsigned with
  | .struct _ fs => fs
  | _ => .nil

/-- The fields of `exampleRefund`. -/
def exampleRefundFields : Fields :=
  match exampleRefund with
  | .struct _ fs => fs
  | _ => .nil

/-- Whether the struct itself has no field called `name`. -/
def noField (name : String) : Fields → Bool
  | .nil => true
  | .named n _ _ rest => decide (n ≠ name) && noField name rest
  | .embedded n _ _ rest => decide (n ≠ name) && noField name rest

/-- Whether the struct itself declares exactly one field called `name`, and
that one is a named field of type `string`. -/
def directString (name : String) : Fields → Bool
  | .nil => false
  | .named n _ v rest =>
    if n = name then
      (match v with
        | .str _ => true
        | _ => false) && noField name rest
    else directString name rest
  | .embedded n _ _ rest => decide (n ≠ name) && directString name rest

/-- The value of the first named field called `name` that the struct itself
declares. -/
def directValue (name : String) : Fields → Option FieldValue
  | .nil => none
  | .named n _ v rest => if n = name then some v else directValue name rest
  | .embedded _ _ _ rest => directValue name rest

/-- The fields with `s` stored in the first named field called `name`. -/
def setDirect (name s : String) : Fields → Fields
  | .nil => .nil
  | .named n t v rest =>
    if n = name then .named n t (.str s) rest else .named n t v (setDirect name s rest)
  | .embedded n t v rest => .embedded n t v (setDirect name s rest)

/-- The value `AuditedRefund{OutTradeNo: "T1"}` of a request type with a second
embedded member, `*Audit` (a struct with the field `Operator`), that is nil. -/
def exampleAudited : Value :=
  .struct "AuditedRefund"
    (.embedded "BaseRequest" "" (.nilPtr zeroBaseRequest)
      (.embedded "Audit" ""
        (.nilPtr (.struct "Audit" (.named "Operator" "operator" (.str "") .nil)))
        (.named "AppID" "appid" (.str "")
          (.named "MchID" "mch_id" (.str "")
            (.named "OutTradeNo" "out_trade_no" (.str "T1") .nil)))))


/-- The nil `*Audit` that `exampleAudited` embeds. -/
def exampleNilAudit : Value :=
  .nilPtr (.struct "Audit" (.named "Operator" "operator" (.str "") .nil))

/-- The fields that `exampleAudited` declares before its `*Audit`. -/
def exampleAuditedBefore : Fields :=
  .embedded "BaseRequest" "" (.nilPtr zeroBaseRequest) .nil

/-- The fields that `exampleAudited` declares after its `*Audit`. -/
def exampleAuditedAfter : Fields :=
  .named "AppID" "appid" (.str "")
    (.named "MchID" "mch_id" (.str "")
      (.named "OutTradeNo" "out_trade_no" (.str "T1") .nil))

/-! ## The nonce: proofs -/

theorem slice_chars_of_lt : ∀ k, k < 35 →
    slice chars k (k + 1) = some (String.mk [drawnChars.getD k 'a']) := by
  decide

theorem getD_mem_drawnChars : ∀ k, k < 35 → drawnChars.getD k 'a' ∈ drawnChars := by
  decide

theorem Intn_chars_lt (draw : Nat) : Intn draw (chars.length - 1) < 35 := by
  have h : chars.length - 1 = 35 := by decide
  rw [h]
  exact Nat.mod_lt _ (by decide)

theorem getNonceStrLoop_spec (rnd : Nat → Nat) :
    ∀ (n i : Nat) (acc : String), ∃ l : List Char,
      getNonceStrLoop rnd n i acc = some (acc ++ String.mk l) ∧ l.length = n ∧
        ∀ ch ∈ l, ch ∈ drawnChars := by
  intro n
  induction n with
  | zero =>
    intro i acc
    refine ⟨[], ?_, rfl, by simp⟩
    cases acc
    simp [getNonceStrLoop, String.ext_iff]
  | succ n ih =>
    intro i acc
    have hlt := Intn_chars_lt (rnd i)
    obtain ⟨l, hl, hlen, hmem⟩ :=
      ih (i + 1) (acc ++ String.mk [drawnChars.getD (Intn (rnd i) (chars.length - 1)) 'a'])
    refine ⟨drawnChars.getD (Intn (rnd i) (chars.length - 1)) 'a' :: l, ?_, by simp [hlen], ?_⟩
    · simp only [getNonceStrLoop, slice_chars_of_lt _ hlt, hl]
      simp [String.ext_iff]
    · intro ch hch
      rcases List.mem_cons.1 hch with h | h
      · rw [h]; exact getD_mem_drawnChars _ hlt
      · exact hmem ch h

theorem getNonceStr_spec (rnd : Nat → Nat) : ∃ l : List Char,
    getNonceStr rnd = some (String.mk l) ∧ l.length = 32 ∧ ∀ ch ∈ l, ch ∈ drawnChars := by
  obtain ⟨l, hl, hlen, hmem⟩ := getNonceStrLoop_spec rnd 32 0 ""
  refine ⟨l, ?_, hlen, hmem⟩
  rw [getNonceStr, hl]
  simp [String.ext_iff]

/-- C5: whatever the random source delivers, no slice index of the loop leaves
the alphabet, and `getNonceStr` returns a string of exactly 32 characters, each a
lower-case letter `a`-`z` or a digit `0`-`9`. -/
theorem getNonceStr_length_alphabet (rnd : Nat → Nat) :
    (∀ i, Intn (rnd i) (chars.length - 1) + 1 ≤ chars.length) ∧
      ∃ s, getNonceStr rnd = some s ∧ s.length = 32 ∧
        ∀ ch ∈ s.data, ('a' ≤ ch ∧ ch ≤ 'z') ∨ ('0' ≤ ch ∧ ch ≤ '9') := by
  constructor
  · intro i
    have h := Intn_chars_lt (rnd i)
    have hc : chars.length = 36 := by decide
    omega
  · obtain ⟨l, hl, hlen, hmem⟩ := getNonceStr_spec rnd
    refine ⟨String.mk l, hl, hlen, ?_⟩
    intro ch hch
    have hall : ∀ x ∈ drawnChars, ('a' ≤ x ∧ x ≤ 'z') ∨ ('0' ≤ x ∧ x ≤ '9') := by decide
    exact hall ch (hmem ch hch)

/-- C10: whatever the random source delivers, every character of the nonce that
`getNonceStr` returns is one of the first 35 characters of the alphabet, and the
last character of the alphabet, `9`, does not occur in it. -/
theorem getNonceStr_never_last_char (rnd : Nat → Nat) :
    ∃ s, getNonceStr rnd = some s ∧
      (∀ ch ∈ s.data, ch ∈ "abcdefghijklmnopqrstuvwxyz012345678".data) ∧
        '9' ∉ s.data ∧ chars.data.getLast? = some '9' := by
  obtain ⟨l, hl, _, hmem⟩ := getNonceStr_spec rnd
  refine ⟨String.mk l, hl, hmem, ?_, by decide⟩
  intro h9
  have hnot : '9' ∉ drawnChars := by decide
  exact hnot (hmem _ h9)

/-! ## Library functions: proofs -/

theorem splitComma_head (l : List Char) :
    ∃ pieces, splitComma l = l.takeWhile (fun c => c != ',') :: pieces := by
  induction l with
  | nil => exact ⟨[], rfl⟩
  | cons c rest ih =>
    obtain ⟨pieces, hp⟩ := ih
    by_cases hc : c = ','
    · exact ⟨splitComma rest, by simp [splitComma, hc]⟩
    · exact ⟨pieces, by simp [splitComma, hc, hp]⟩

theorem tagName_eq_wireName (tag : String) : tagName tag = wireName tag := by
  obtain ⟨pieces, hp⟩ := splitComma_head tag.data
  simp [tagName, Split, wireName, hp]

theorem digitByte_eq_decimalDigit : ∀ u, u < 10 → digitByte u = decimalDigit u := by
  decide

theorem decimalDigit_mod (n : Nat) : decimalDigit (n % 10) = decimalDigit n := by
  simp [decimalDigit]

theorem appendInt_two : ∀ n, n < 100 → appendInt n 2 = twoDigits n := by
  decide

theorem appendInt_four (n : Nat) (h : n < 10000) : appendInt n 4 = fourDigits n := by
  have e1 : n - n / 10 * 10 = n % 10 := by omega
  have e2 : n / 10 - n / 10 / 10 * 10 = n / 10 % 10 := by omega
  have e3 : n / 10 / 10 - n / 10 / 10 / 10 * 10 = n / 10 / 10 % 10 := by omega
  have e2' : n / 10 - n / 100 * 10 = n / 10 % 10 := by omega
  have e3' : n / 100 - n / 1000 * 10 = n / 100 % 10 := by omega
  have d1 : n / 10 / 10 = n / 100 := by omega
  have d2 : n / 100 / 10 = n / 1000 := by omega
  have m1 := digitByte_eq_decimalDigit (n % 10) (Nat.mod_lt _ (by decide))
  have m2 := digitByte_eq_decimalDigit (n / 10 % 10) (Nat.mod_lt _ (by decide))
  have m3 := digitByte_eq_decimalDigit (n / 100 % 10) (Nat.mod_lt _ (by decide))
  have z : decimalDigit 0 = '0' := by decide
  by_cases h1 : 10 ≤ n
  · by_cases h2 : 10 ≤ n / 10
    · by_cases h3 : 10 ≤ n / 100
      · have h4 : ¬ 10 ≤ n / 1000 := by omega
        have m4 := digitByte_eq_decimalDigit (n / 1000) (by omega)
        simp [appendInt, appendIntDigits, fourDigits, h1, h2, h3, h4, e1, e2, e3, e2', e3', d1,
          d2, m1, m2, m3, m4, decimalDigit_mod]
      · have m4 := digitByte_eq_decimalDigit (n / 100) (by omega)
        have z1 : n / 1000 = 0 := by omega
        simp [appendInt, appendIntDigits, fourDigits, h1, h2, h3, e1, e2, e2', e3', d1, m1, m2,
          m4, decimalDigit_mod, z1, z]
    · have m4 := digitByte_eq_decimalDigit (n / 10) (by omega)
      have z1 : n / 1000 = 0 := by omega
      have z2 : n / 100 = 0 := by omega
      simp [appendInt, appendIntDigits, fourDigits, h1, h2, e1, m1, m4, decimalDigit_mod, z1,
        z2, z]
  · have m4 := digitByte_eq_decimalDigit n (by omega)
    have z1 : n / 1000 = 0 := by omega
    have z2 : n / 100 = 0 := by omega
    have z3 : n / 10 = 0 := by omega
    simp [appendInt, appendIntDigits, fourDigits, h1, m4, z1, z2, z3, z]

theorem Format_eq_timestamp (t : Time) : t.Format "2006-01-02 15:04:05" = timestamp t := by
  have hl : "2006-01-02 15:04:05".data =
      ['2', '0', '0', '6', '-', '0', '1', '-', '0', '2', ' ', '1', '5', ':', '0', '4', ':',
        '0', '5'] := rfl
  have hy := appendInt_four t.year t.year.isLt
  have hmo := appendInt_two t.month (by omega)
  have hd := appendInt_two t.day (by omega)
  have hh := appendInt_two t.hour (by omega)
  have hmi := appendInt_two t.minute (by omega)
  have hs := appendInt_two t.second (by omega)
  rw [Time.Format, hl]
  simp only [formatLayout, hy, hmo, hd, hh, hmi, hs, timestamp]
  simp [String.ext_iff]

/-! ## The extractors: proofs -/

theorem Itoa_eq_decimal (n : Int) : Itoa n = decimal n := by
  cases n with
  | ofNat m =>
    have h : ¬ ((m : Int) < 0) := by omega
    simp [Itoa, decimal, h]
  | negSucc m =>
    have h : Int.negSucc m < 0 := Int.negSucc_lt_zero m
    simp [Itoa, decimal, h, Int.natAbs]

theorem fieldStrValue_eq_scalarText (v : FieldValue) : fieldStrValue v = scalarText v := by
  cases v <;> simp [fieldStrValue, scalarText, Itoa_eq_decimal, Format_eq_timestamp]

mutual
theorem parseXMLTag2_eq : ∀ (v : Value) (lv : linkValues),
    (parseXMLTag2 lv v).1 =
      ⟨lv.keys ++ (refEntriesFull v).map Prod.fst, (refEntriesFull v).reverse ++ lv.values⟩
  | .ptr v, lv => by
    rw [parseXMLTag2, refEntriesFull]
    exact parseXMLTag2_eq v lv
  | .nilPtr _, lv => by simp [parseXMLTag2, refEntriesFull]
  | .nonStruct _, lv => by simp [parseXMLTag2, refEntriesFull]
  | .struct _ fs, lv => by
    rw [parseXMLTag2, refEntriesFull]
    exact parseXMLTag2Fields_eq fs lv
theorem parseXMLTag2Fields_eq : ∀ (fs : Fields) (lv : linkValues),
    parseXMLTag2Fields lv fs =
      ⟨lv.keys ++ (refFieldsFull fs).map Prod.fst, (refFieldsFull fs).reverse ++ lv.values⟩
  | .nil, lv => by simp [parseXMLTag2Fields, refFieldsFull]
  | .embedded _ _ v rest, lv => by
    rw [parseXMLTag2Fields, refFieldsFull, parseXMLTag2Fields_eq rest, parseXMLTag2_eq v lv]
    simp
  | .named _ tag v rest, lv => by
    rw [parseXMLTag2Fields, refFieldsFull, fieldStrValue_eq_scalarText, tagName_eq_wireName]
    cases h : scalarText v with
    | none => simp [parseXMLTag2Fields_eq rest]
    | some s => simp [parseXMLTag2Fields_eq rest]
end

theorem refEntries_ptr (v : Value) : refEntries (.ptr v) = refEntries v := by
  simp [refEntries, refEntriesFull]

theorem refEntries_struct (ty : String) (fs : Fields) :
    refEntries (.struct ty fs) = refFields fs := by
  simp [refEntries, refFields, refEntriesFull]

theorem refFields_embedded (n t : String) (v : Value) (rest : Fields) :
    refFields (.embedded n t v rest) = refEntries v ++ refFields rest := by
  simp [refEntries, refFields, refFieldsFull]

theorem refFields_named (n tag : String) (v : FieldValue) (rest : Fields) :
    refFields (.named n tag v rest) =
      if wireName tag = "" ∨ wireName tag = "sign" then refFields rest
      else
        match scalarText v with
        | none => refFields rest
        | some s => (wireName tag, s) :: refFields rest := by
  by_cases h : wireName tag = "" ∨ wireName tag = "sign"
  · rw [if_pos h]
    have h' : ¬ (¬ wireName tag = "" ∧ ¬ wireName tag = "sign") := by tauto
    cases hs : scalarText v <;> simp [refFields, refFieldsFull, hs, h']
  · rw [if_neg h]
    have h' : ¬ wireName tag = "" ∧ ¬ wireName tag = "sign" := by tauto
    cases hs : scalarText v <;> simp [refFields, refFieldsFull, hs, h']

mutual
theorem parseXMLTag_eq : ∀ (v : Value) (lv : linkValues),
    (parseXMLTag lv v).1 =
      ⟨lv.keys ++ (refEntries v).map Prod.fst, (refEntries v).reverse ++ lv.values⟩
  | .ptr v, lv => by
    rw [parseXMLTag, refEntries_ptr]
    exact parseXMLTag_eq v lv
  | .nilPtr _, lv => by simp [parseXMLTag, refEntries, refEntriesFull]
  | .nonStruct _, lv => by simp [parseXMLTag, refEntries, refEntriesFull]
  | .struct _ fs, lv => by
    rw [parseXMLTag, refEntries_struct]
    exact parseXMLTagFields_eq fs lv
theorem parseXMLTagFields_eq : ∀ (fs : Fields) (lv : linkValues),
    parseXMLTagFields lv fs =
      ⟨lv.keys ++ (refFields fs).map Prod.fst, (refFields fs).reverse ++ lv.values⟩
  | .nil, lv => by simp [parseXMLTagFields, refFields, refFieldsFull]
  | .embedded _ _ v rest, lv => by
    rw [parseXMLTagFields, refFields_embedded, parseXMLTagFields_eq rest, parseXMLTag_eq v lv]
    simp
  | .named _ tag v rest, lv => by
    rw [parseXMLTagFields, refFields_named, fieldStrValue_eq_scalarText, tagName_eq_wireName]
    by_cases h : wireName tag = "" ∨ wireName tag = "sign"
    · simp only [if_pos h]
      exact parseXMLTagFields_eq rest lv
    · simp only [if_neg h]
      cases hs : scalarText v with
      | none => simp [parseXMLTagFields_eq rest]
      | some s => simp [parseXMLTagFields_eq rest]
end

theorem parseXMLTag_error (v : Value) (lv : linkValues) :
    (parseXMLTag lv v).2 = if derefIsStruct v then none else some "must struct" := by
  induction v using Value.rec (motive_2 := fun _ => True) generalizing lv <;>
    simp_all [parseXMLTag, derefIsStruct]

theorem parseXMLTag2_error (v : Value) (lv : linkValues) :
    (parseXMLTag2 lv v).2 = if derefIsStruct v then none else some "must struct" := by
  induction v using Value.rec (motive_2 := fun _ => True) generalizing lv <;>
    simp_all [parseXMLTag2, derefIsStruct]

theorem refEntriesFull_of_not_struct (v : Value) (h : derefIsStruct v = false) :
    refEntriesFull v = [] := by
  induction v using Value.rec (motive_2 := fun _ => True) <;>
    simp_all [refEntriesFull, derefIsStruct]

theorem refEntries_of_not_struct (v : Value) (h : derefIsStruct v = false) :
    refEntries v = [] := by
  simp [refEntries, refEntriesFull_of_not_struct v h]

/-- C6: a value that is not a struct once all pointers are followed makes both
extractors return a non-nil error and leave the mapping as it was, and makes
`Client.sign` return the empty string with that error; a value that is a struct
once all pointers are followed makes the top-level call of both extractors return
a nil error. -/
theorem extractor_error_iff_not_struct (d : Digests) (c : Client) (v : Value)
    (lv : linkValues) (t : String) :
    (derefIsStruct v = false →
      (parseXMLTag lv v).2 ≠ none ∧ (parseXMLTag lv v).1 = lv ∧
      (parseXMLTag2 lv v).2 ≠ none ∧ (parseXMLTag2 lv v).1 = lv ∧
      sign d c v t = ("", (parseXMLTag ⟨[], []⟩ v).2)) ∧
    (derefIsStruct v = true →
      (parseXMLTag lv v).2 = none ∧ (parseXMLTag2 lv v).2 = none) := by
  constructor
  · intro h
    have e1 := parseXMLTag_error v
    have e2 := parseXMLTag2_error v lv
    refine ⟨?_, ?_, ?_, ?_, ?_⟩
    · simp [e1, h]
    · rw [parseXMLTag_eq, refEntries_of_not_struct v h]
      simp
    · simp [e2, h]
    · rw [parseXMLTag2_eq, refEntriesFull_of_not_struct v h]
      simp
    · have e3 := e1 ⟨[], []⟩
      rw [h] at e3
      simp only [sign]
      generalize parseXMLTag ⟨[], []⟩ v = r at e3
      obtain ⟨r1, r2⟩ := r
      simp at e3
      subst e3
      rfl
  · intro h
    simp [parseXMLTag_error, parseXMLTag2_error, h]

/-- C6 on concrete values: a nil pointer to a `RefundRequest` is refused, a
pointer to a `RefundRequest` is accepted. -/
theorem extractor_error_iff_not_struct_witness :
    ((parseXMLTag ⟨[], []⟩ (.nilPtr exampleRefund)).2 ≠ none ∧
      (parseXMLTag ⟨[], []⟩ (.nilPtr exampleRefund)).1 = ⟨[], []⟩ ∧
      (parseXMLTag2 ⟨[], []⟩ (.nilPtr exampleRefund)).2 ≠ none ∧
      (parseXMLTag2 ⟨[], []⟩ (.nilPtr exampleRefund)).1 = ⟨[], []⟩ ∧
      sign toyDigests exampleClient (.nilPtr exampleRefund) "MD5" =
        ("", (parseXMLTag ⟨[], []⟩ (.nilPtr exampleRefund)).2)) ∧
    ((parseXMLTag ⟨[], []⟩ (.ptr exampleRefund)).2 = none ∧
      (parseXMLTag2 ⟨[], []⟩ (.ptr exampleRefund)).2 = none) :=
  ⟨(extractor_error_iff_not_struct toyDigests exampleClient (.nilPtr exampleRefund)
      ⟨[], []⟩ "MD5").1 (by decide),
    (extractor_error_iff_not_struct toyDigests exampleClient (.ptr exampleRefund)
      ⟨[], []⟩ "MD5").2 (by decide)⟩

theorem lookup_eq_some_iff_mem_of_nodup (l : List (String × String))
    (h : (l.map Prod.fst).Nodup) (n s : String) :
    l.lookup n = some s ↔ (n, s) ∈ l := by
  induction l with
  | nil => simp
  | cons e l ih =>
    obtain ⟨a, b⟩ := e
    simp only [List.map_cons, List.nodup_cons] at h
    by_cases hna : n = a
    · subst hna
      simp only [List.lookup_cons, beq_self_eq_true, List.mem_cons, Prod.mk.injEq, true_and,
        Option.some.injEq]
      constructor
      · intro hb; exact Or.inl hb.symm
      · rintro (hb | hmem)
        · exact hb.symm
        · exact absurd (List.mem_map_of_mem Prod.fst hmem) h.1
    · have hbeq : (n == a) = false := by simpa using hna
      simp only [List.lookup_cons, hbeq, List.mem_cons, Prod.mk.injEq, hna, false_and,
        false_or]
      exact ih h.2

theorem lookup_reverse_of_nodup (l : List (String × String))
    (h : (l.map Prod.fst).Nodup) (n s : String) :
    l.reverse.lookup n = some s ↔ (n, s) ∈ l := by
  have h' : (l.reverse.map Prod.fst).Nodup := by
    rw [List.map_reverse]
    exact List.nodup_reverse.2 h
  rw [lookup_eq_some_iff_mem_of_nodup _ h']
  simp

theorem refEntries_names_sublist (v : Value) :
    ((refEntries v).map Prod.fst).Sublist ((refEntriesFull v).map Prod.fst) :=
  (List.filter_sublist _).map Prod.fst

/-- C8: for a struct whose wire names are pairwise distinct, the top-level call of
the signing extractor returns a nil error and the mapping it builds from the
empty one has exactly the entries of the reference mapping (one entry for each
text, integer or timestamp field of the struct or of a struct embedded at any
depth, whose wire name is neither empty nor `sign`), under keys in declaration
order; the full variant builds the reference mapping without the two
exclusions. -/
theorem extractor_mapping_eq_reference (ty : String) (fs : Fields)
    (h : ((refEntriesFull (.struct ty fs)).map Prod.fst).Nodup) :
    ((parseXMLTag ⟨[], []⟩ (.struct ty fs)).2 = none ∧
      (parseXMLTag ⟨[], []⟩ (.struct ty fs)).1.keys =
        (refEntries (.struct ty fs)).map Prod.fst ∧
      ∀ n s, (parseXMLTag ⟨[], []⟩ (.struct ty fs)).1.values.lookup n = some s ↔
        (n, s) ∈ refEntries (.struct ty fs)) ∧
    ((parseXMLTag2 ⟨[], []⟩ (.struct ty fs)).2 = none ∧
      (parseXMLTag2 ⟨[], []⟩ (.struct ty fs)).1.keys =
        (refEntriesFull (.struct ty fs)).map Prod.fst ∧
      ∀ n s, (parseXMLTag2 ⟨[], []⟩ (.struct ty fs)).1.values.lookup n = some s ↔
        (n, s) ∈ refEntriesFull (.struct ty fs)) := by
  have hs : ((refEntries (.struct ty fs)).map Prod.fst).Nodup :=
    h.sublist (refEntries_names_sublist _)
  refine ⟨⟨?_, ?_, ?_⟩, ?_, ?_, ?_⟩
  · simp [parseXMLTag_error, derefIsStruct]
  · simp [parseXMLTag_eq]
  · intro n s
    rw [parseXMLTag_eq]
    simpa using lookup_reverse_of_nodup _ hs n s
  · simp [parseXMLTag2_error, derefIsStruct]
  · simp [parseXMLTag2_eq]
  · intro n s
    rw [parseXMLTag2_eq]
    simpa using lookup_reverse_of_nodup _ h n s

/-- C8 on a concrete request: the entries of `exampleMixed`. -/
theorem extractor_mapping_eq_reference_witness :
    (refEntries exampleMixed =
        [("sign_type", "MD5"), ("nonce_str", "n0nce"), ("mch_appid", "wxapp"),
          ("amount", "-5"), ("created", "2024-03-09 07:05:00")] ∧
      refEntriesFull exampleMixed =
        [("sign", "0F0F"), ("sign_type", "MD5"), ("nonce_str", "n0nce"),
          ("mch_appid", "wxapp"), ("amount", "-5"), ("created", "2024-03-09 07:05:00"),
          ("", "memo")]) ∧
    ((parseXMLTag ⟨[], []⟩ exampleMixed).2 = none ∧
      (parseXMLTag ⟨[], []⟩ exampleMixed).1.keys = (refEntries exampleMixed).map Prod.fst ∧
      ∀ n s, (parseXMLTag ⟨[], []⟩ exampleMixed).1.values.lookup n = some s ↔
        (n, s) ∈ refEntries exampleMixed) ∧
    ((parseXMLTag2 ⟨[], []⟩ exampleMixed).2 = none ∧
      (parseXMLTag2 ⟨[], []⟩ exampleMixed).1.keys =
        (refEntriesFull exampleMixed).map Prod.fst ∧
      ∀ n s, (parseXMLTag2 ⟨[], []⟩ exampleMixed).1.values.lookup n = some s ↔
        (n, s) ∈ refEntriesFull exampleMixed) :=
  ⟨by decide, extractor_mapping_eq_reference "MixedRequest" _ (by decide)⟩

/-! ## The base string: proofs -/

theorem insertionSort_entries_names (l : List (String × String)) :
    (l.insertionSort (fun a b => a.1.data ≤ b.1.data)).map Prod.fst =
      sortStrings (l.map Prod.fst) := by
  unfold sortStrings
  exact List.map_insertionSort (fun a b : String × String => a.1.data ≤ b.1.data)
    (fun a b : String => a.data ≤ b.data) Prod.fst l (fun _ _ _ _ => Iff.rfl)

theorem concatAll_append (l₁ l₂ : List String) :
    concatAll (l₁ ++ l₂) = concatAll l₁ ++ concatAll l₂ := by
  induction l₁ with
  | nil => simp [concatAll]
  | cons s l ih => simp [concatAll, ih, String.append_assoc]

theorem foldl_write_eq_concatAll (g : String → String) (keys : List String) (acc : String) :
    keys.foldl (fun bf v => bf ++ v ++ "=" ++ g v ++ "&") acc =
      acc ++ concatAll (keys.map (fun v => v ++ "=" ++ g v ++ "&")) := by
  induction keys generalizing acc with
  | nil => simp [concatAll]
  | cons k keys ih =>
    simp only [List.foldl_cons, List.map_cons, concatAll, ih]
    simp [String.append_assoc]

theorem signBase_eq_canonicalBase (c : Client) (v : Value)
    (h : ((refEntries v).map Prod.fst).Nodup) :
    signBase c (parseXMLTag ⟨[], []⟩ v).1 = canonicalBase (refEntries v) c.ApiKey := by
  rw [parseXMLTag_eq]
  simp only [signBase, canonicalBase, List.nil_append, List.append_nil]
  rw [foldl_write_eq_concatAll, ← insertionSort_entries_names, List.map_map]
  congr 3
  simp only [String.empty_append]
  congr 1
  apply List.map_congr_left
  intro e he
  have hmem : e ∈ refEntries v := (List.mem_insertionSort _).1 he
  have hl : (refEntries v).reverse.lookup e.1 = some e.2 :=
    (lookup_reverse_of_nodup _ h e.1 e.2).2 hmem
  simp [mapGet, hl]

/-! ## The digest: proofs -/

theorem toUpper_hexDigit : ∀ n, n < 16 → Char.toUpper (hexDigit n) = upperHexDigit n := by
  decide

theorem toUpper_upperHexDigit : ∀ n, n < 16 →
    Char.toUpper (upperHexDigit n) = upperHexDigit n := by
  decide

theorem upperHexDigit_mem : ∀ n, n < 16 → upperHexDigit n ∈ "0123456789ABCDEF".data := by
  decide

theorem toUpper_hexEncodeToString (bs : List (Fin 256)) :
    toUpper (hexEncodeToString bs) = upperHex bs := by
  induction bs with
  | nil => rfl
  | cons b bs ih =>
    have h1 : b.val / 16 < 16 := by omega
    have h2 : b.val % 16 < 16 := Nat.mod_lt _ (by decide)
    simp only [toUpper, hexEncodeToString, upperHex, String.ext_iff] at ih ⊢
    simp [ih, toUpper_hexDigit _ h1, toUpper_hexDigit _ h2]

theorem toUpper_upperHex (bs : List (Fin 256)) : toUpper (upperHex bs) = upperHex bs := by
  induction bs with
  | nil => rfl
  | cons b bs ih =>
    have h1 : b.val / 16 < 16 := by omega
    have h2 : b.val % 16 < 16 := Nat.mod_lt _ (by decide)
    simp only [toUpper, upperHex, String.ext_iff] at ih ⊢
    simp [ih, toUpper_upperHexDigit _ h1, toUpper_upperHexDigit _ h2]

theorem upperHex_length (bs : List (Fin 256)) : (upperHex bs).length = 2 * bs.length := by
  induction bs with
  | nil => rfl
  | cons b bs ih =>
    simp only [upperHex, String.length] at ih ⊢
    simp [ih]
    omega

theorem upperHex_chars (bs : List (Fin 256)) :
    ∀ ch ∈ (upperHex bs).data, ch ∈ "0123456789ABCDEF".data := by
  intro ch hch
  simp only [upperHex, List.mem_flatMap] at hch
  obtain ⟨b, _, hb⟩ := hch
  have h1 : b.val / 16 < 16 := by omega
  have h2 : b.val % 16 < 16 := Nat.mod_lt _ (by decide)
  rcases List.mem_cons.1 hb with h | h
  · rw [h]; exact upperHexDigit_mem _ h1
  · rw [List.mem_singleton.1 h]; exact upperHexDigit_mem _ h2

theorem sign_of_struct (d : Digests) (c : Client) (v : Value) (t : String)
    (hv : derefIsStruct v = true) :
    sign d c v t =
      (toUpper (if t = "HMAC-SHA256"
          then HmacSha256 d (signBase c (parseXMLTag ⟨[], []⟩ v).1) c.ApiKey
          else hexEncodeToString (d.md5Sum (signBase c (parseXMLTag ⟨[], []⟩ v).1))), none) := by
  have e := parseXMLTag_error v ⟨[], []⟩
  rw [hv] at e
  simp only [sign]
  generalize parseXMLTag ⟨[], []⟩ v = r at e
  obtain ⟨r1, r2⟩ := r
  simp at e
  subst e
  rfl

/-! ## The base string is what is digested -/

/-- C1: for a request struct whose signable wire names are pairwise distinct and
any secret, the bytes that `Client.sign` digests are the canonical base string:
for each signable name in ascending order `name=value&` (also after the last
one), then `key=` and the secret, with nothing after it; for the signable fields
`A: "1"` and `B: "2"` that is `A=1&B=2&key=` and the secret, in either order of
declaration. -/
theorem sign_base_string (d : Digests) (c : Client) (v : Value) (t : String) :
    (derefIsStruct v = true → ((refEntries v).map Prod.fst).Nodup →
      signBase c (parseXMLTag ⟨[], []⟩ v).1 = canonicalBase (refEntries v) c.ApiKey ∧
      sign d c v t =
        (toUpper (if t = "HMAC-SHA256"
          then HmacSha256 d (canonicalBase (refEntries v) c.ApiKey) c.ApiKey
          else hexEncodeToString (d.md5Sum (canonicalBase (refEntries v) c.ApiKey))),
          none)) ∧
    signBase c (parseXMLTag ⟨[], []⟩ requestAB).1 = "A=1&B=2&key=" ++ c.ApiKey ∧
    signBase c (parseXMLTag ⟨[], []⟩ requestBA).1 = "A=1&B=2&key=" ++ c.ApiKey := by
  refine ⟨fun hv hn => ⟨signBase_eq_canonicalBase c v hn, ?_⟩, ?_, ?_⟩
  · rw [sign_of_struct d c v t hv, signBase_eq_canonicalBase c v hn]
  · rw [signBase_eq_canonicalBase c requestAB (by decide)]
    have e2 : concatAll (((refEntries requestAB).insertionSort
        (fun a b => a.1.data ≤ b.1.data)).map (fun e => e.1 ++ "=" ++ e.2 ++ "&")) ++ "key=" =
        "A=1&B=2&key=" := by decide
    rw [canonicalBase, e2]
  · rw [signBase_eq_canonicalBase c requestBA (by decide)]
    have e2 : concatAll (((refEntries requestBA).insertionSort
        (fun a b => a.1.data ≤ b.1.data)).map (fun e => e.1 ++ "=" ++ e.2 ++ "&")) ++ "key=" =
        "A=1&B=2&key=" := by decide
    rw [canonicalBase, e2]

/-- C1 on the refund request of the specification, signed with the secret `K`. -/
theorem sign_base_string_witness :
    canonicalBase (refEntries exampleRefund) exampleClient.ApiKey =
        "appid=&mch_id=&out_refund_no=&out_trade_no=T1&refund_desc=&refund_fee=50&total_fee=100&key=K" ∧
      signBase exampleClient (parseXMLTag ⟨[], []⟩ exampleRefund).1 =
        canonicalBase (refEntries exampleRefund) exampleClient.ApiKey ∧
      sign toyDigests exampleClient exampleRefund "MD5" =
        (toUpper (if "MD5" = "HMAC-SHA256"
          then HmacSha256 toyDigests (canonicalBase (refEntries exampleRefund)
            exampleClient.ApiKey) exampleClient.ApiKey
          else hexEncodeToString (toyDigests.md5Sum
            (canonicalBase (refEntries exampleRefund) exampleClient.ApiKey))), none) :=
  ⟨by decide,
    (sign_base_string toyDigests exampleClient exampleRefund "MD5").1 (by decide) (by decide)⟩

/-- C2: on a request that is a struct, with `B` the bytes of the base string,
`Client.sign` returns for the signature type `HMAC-SHA256` the upper-cased
hexadecimal encoding of HMAC-SHA256 keyed with the secret over `B` (64
characters), and for every other signature type the upper-cased hexadecimal
encoding of the MD5 digest of `B` (32 characters); the characters are among
`0`-`9` and `A`-`F`, and the error is nil. -/
theorem sign_digest (d : Digests) (c : Client) (v : Value) (t : String)
    (hv : derefIsStruct v = true) :
    (t = "HMAC-SHA256" →
      sign d c v t =
        (upperHex (d.hmacSha256 c.ApiKey (signBase c (parseXMLTag ⟨[], []⟩ v).1)), none) ∧
      (sign d c v t).1.length = 64) ∧
    (t ≠ "HMAC-SHA256" →
      sign d c v t = (upperHex (d.md5Sum (signBase c (parseXMLTag ⟨[], []⟩ v).1)), none) ∧
      (sign d c v t).1.length = 32) ∧
    ∀ ch ∈ (sign d c v t).1.data, ch ∈ "0123456789ABCDEF".data := by
  have hH : t = "HMAC-SHA256" → sign d c v t =
      (upperHex (d.hmacSha256 c.ApiKey (signBase c (parseXMLTag ⟨[], []⟩ v).1)), none) := by
    intro ht
    rw [sign_of_struct d c v t hv, if_pos ht, HmacSha256, toUpper_hexEncodeToString,
      toUpper_upperHex]
  have hM : t ≠ "HMAC-SHA256" → sign d c v t =
      (upperHex (d.md5Sum (signBase c (parseXMLTag ⟨[], []⟩ v).1)), none) := by
    intro ht
    rw [sign_of_struct d c v t hv, if_neg ht, toUpper_hexEncodeToString]
  refine ⟨fun ht => ⟨hH ht, ?_⟩, fun ht => ⟨hM ht, ?_⟩, ?_⟩
  · rw [hH ht, upperHex_length, d.hmacSha256_length]
  · rw [hM ht, upperHex_length, d.md5Sum_length]
  · by_cases ht : t = "HMAC-SHA256"
    · rw [hH ht]; exact upperHex_chars _
    · rw [hM ht]; exact upperHex_chars _

/-- C2 on the refund request: the signature type `HMAC-SHA256` selects the keyed
digest, the empty signature type and a spelling in lower case select MD5. -/
theorem sign_digest_witness :
    (sign toyDigests exampleClient exampleRefund "HMAC-SHA256" =
        (upperHex (toyDigests.hmacSha256 exampleClient.ApiKey
          (signBase exampleClient (parseXMLTag ⟨[], []⟩ exampleRefund).1)), none) ∧
      (sign toyDigests exampleClient exampleRefund "HMAC-SHA256").1.length = 64) ∧
    (sign toyDigests exampleClient exampleRefund "" =
        (upperHex (toyDigests.md5Sum
          (signBase exampleClient (parseXMLTag ⟨[], []⟩ exampleRefund).1)), none) ∧
      (sign toyDigests exampleClient exampleRefund "").1.length = 32) ∧
    (sign toyDigests exampleClient exampleRefund "hmac-sha256" =
        (upperHex (toyDigests.md5Sum
          (signBase exampleClient (parseXMLTag ⟨[], []⟩ exampleRefund).1)), none) ∧
      (sign toyDigests exampleClient exampleRefund "hmac-sha256").1.length = 32) :=
  ⟨(sign_digest toyDigests exampleClient exampleRefund "HMAC-SHA256" (by decide)).1 rfl,
    (sign_digest toyDigests exampleClient exampleRefund "" (by decide)).2.1 (by decide),
    (sign_digest toyDigests exampleClient exampleRefund "hmac-sha256" (by decide)).2.1
      (by decide)⟩

/-! ## The signature field: proofs -/


theorem parseXMLTag_congr (v : Value) :
    ∀ (w : Value) (lv : linkValues), eqExceptSign v w = true →
      parseXMLTag lv v = parseXMLTag lv w := by
  induction v using Value.rec
    (motive_2 := fun fs => ∀ (gs : Fields) (lv : linkValues),
      eqExceptSignFields fs gs = true → parseXMLTagFields lv fs = parseXMLTagFields lv gs) with
  | nonStruct ty =>
    intro w lv h
    cases w <;> simp_all [eqExceptSign, parseXMLTag]
  | struct ty fs ih =>
    intro w lv h
    cases w <;> simp_all [eqExceptSign, parseXMLTag]
    exact ih _ lv h.2
  | ptr v ih =>
    intro w lv h
    cases w <;> simp_all [eqExceptSign, parseXMLTag]
    exact ih _ lv h
  | nilPtr p _ =>
    intro w lv h
    cases w <;> simp_all [eqExceptSign, parseXMLTag]
  | nil =>
    rename_i gs lv h
    cases gs <;> simp_all [eqExceptSignFields]
  | named n t v r ih =>
    rename_i gs lv h
    cases gs with
    | nil => simp [eqExceptSignFields] at h
    | embedded _ _ _ _ => simp [eqExceptSignFields] at h
    | named n' t' v' r' =>
      simp only [eqExceptSignFields, Bool.and_eq_true, Bool.or_eq_true, decide_eq_true_eq] at h
      obtain ⟨⟨⟨hn, ht⟩, hv⟩, hr⟩ := h
      subst hn ht
      simp only [parseXMLTagFields, tagName_eq_wireName]
      rcases hv with hs | hv
      · simp [hs, ih _ lv hr]
      · subst hv
        by_cases hname : wireName t = "" ∨ wireName t = "sign"
        · simp only [if_pos hname]; exact ih _ lv hr
        · simp only [if_neg hname]
          cases fieldStrValue v with
          | none => exact ih _ lv hr
          | some s => exact ih _ _ hr
  | embedded n t v r ihv ihr =>
    rename_i gs lv h
    cases gs with
    | nil => simp [eqExceptSignFields] at h
    | named _ _ _ _ => simp [eqExceptSignFields] at h
    | embedded n' t' v' r' =>
      simp only [eqExceptSignFields, Bool.and_eq_true, decide_eq_true_eq] at h
      obtain ⟨⟨⟨hn, ht⟩, hv⟩, hr⟩ := h
      simp only [parseXMLTagFields]
      rw [ihv _ lv hv]
      exact ihr _ _ hr

/-- C3: the mapping that the signing extractor builds has no entry named `sign`,
and two requests that are equal except for what is stored in the field with the
wire name `sign` get the same mapping, the same base string and the same result
of `Client.sign`, for every secret and signature type. -/
theorem sign_ignores_sign_field (d : Digests) (c : Client) (v w : Value) (t : String)
    (h : eqExceptSign v w = true) :
    "sign" ∉ (parseXMLTag ⟨[], []⟩ v).1.keys ∧
      (parseXMLTag ⟨[], []⟩ v).1.values.lookup "sign" = none ∧
      parseXMLTag ⟨[], []⟩ v = parseXMLTag ⟨[], []⟩ w ∧
      signBase c (parseXMLTag ⟨[], []⟩ v).1 = signBase c (parseXMLTag ⟨[], []⟩ w).1 ∧
      sign d c v t = sign d c w t := by
  have hp := parseXMLTag_congr v w ⟨[], []⟩ h
  have hk : "sign" ∉ (refEntries v).map Prod.fst := by
    intro hmem
    obtain ⟨e, he, hname⟩ := List.mem_map.1 hmem
    have := (List.mem_filter.1 he).2
    simp [hname] at this
  refine ⟨?_, ?_, hp, by rw [hp], ?_⟩
  · rw [parseXMLTag_eq]
    simpa using hk
  · rw [parseXMLTag_eq]
    simp only [List.append_nil]
    rw [List.lookup_eq_none_iff]
    intro e he
    have he' : e ∈ refEntries v := by simpa using he
    have hne : "sign" ≠ e.1 := fun hname => hk (List.mem_map.2 ⟨e, he', hname.symm⟩)
    simpa using hne
  · simp only [sign, hp]

/-- C3 on a concrete request: `exampleMixed` and the same request with another
signature in its envelope are signed alike. -/
theorem sign_ignores_sign_field_witness :
    eqExceptSign exampleMixed exampleMixedResigned = true ∧
      refEntriesFull exampleMixed ≠ refEntriesFull exampleMixedResigned ∧
      "sign" ∉ (parseXMLTag ⟨[], []⟩ exampleMixed).1.keys ∧
      (parseXMLTag ⟨[], []⟩ exampleMixed).1.values.lookup "sign" = none ∧
      parseXMLTag ⟨[], []⟩ exampleMixed = parseXMLTag ⟨[], []⟩ exampleMixedResigned ∧
      signBase exampleClient (parseXMLTag ⟨[], []⟩ exampleMixed).1 =
        signBase exampleClient (parseXMLTag ⟨[], []⟩ exampleMixedResigned).1 ∧
      sign toyDigests exampleClient exampleMixed "HMAC-SHA256" =
        sign toyDigests exampleClient exampleMixedResigned "HMAC-SHA256" :=
  ⟨by decide, by decide,
    sign_ignores_sign_field toyDigests exampleClient exampleMixed exampleMixedResigned
      "HMAC-SHA256" (by decide)⟩

/-! ## Empty values: proofs -/

theorem mem_refEntries_of_hasField (tag s : String) (h1 : wireName tag ≠ "")
    (h2 : wireName tag ≠ "sign") (v : Value) :
    hasField tag (.str s) v = true → (wireName tag, s) ∈ refEntries v := by
  induction v using Value.rec
    (motive_2 := fun fs => hasFieldIn tag (.str s) fs = true →
      (wireName tag, s) ∈ refFields fs) with
  | nonStruct ty => intro h; simp [hasField] at h
  | nilPtr p _ => intro h; simp [hasField] at h
  | struct ty fs ih =>
    intro h
    rw [refEntries_struct]
    exact ih (by simpa [hasField] using h)
  | ptr v ih =>
    intro h
    rw [refEntries_ptr]
    exact ih (by simpa [hasField] using h)
  | nil => rename_i h; simp [hasFieldIn] at h
  | named n t w rest ih =>
    rename_i h
    rw [refFields_named]
    simp only [hasFieldIn, Bool.or_eq_true, Bool.and_eq_true, decide_eq_true_eq] at h
    rcases h with ⟨ht, hw⟩ | hrest
    · subst ht hw
      simp [h1, h2, scalarText]
    · by_cases hname : wireName t = "" ∨ wireName t = "sign"
      · simp only [if_pos hname]; exact ih hrest
      · simp only [if_neg hname]
        cases scalarText w with
        | none => exact ih hrest
        | some s' => exact List.mem_cons_of_mem _ (ih hrest)
  | embedded n t v rest ihv ihr =>
    rename_i h
    rw [refFields_embedded]
    simp only [hasFieldIn, Bool.or_eq_true] at h
    rcases h with hv | hrest
    · exact List.mem_append_left _ (ihv hv)
    · exact List.mem_append_right _ (ihr hrest)

theorem canonicalBase_contains (entries : List (String × String)) (k : String)
    (e : String × String) (he : e ∈ entries) :
    ∃ pre post, canonicalBase entries k = pre ++ (e.1 ++ "=" ++ e.2 ++ "&") ++ post := by
  have hmem : e ∈ entries.insertionSort (fun a b => a.1.data ≤ b.1.data) :=
    (List.mem_insertionSort _).2 he
  obtain ⟨l₁, l₂, hl⟩ := List.append_of_mem hmem
  refine ⟨concatAll (l₁.map (fun e => e.1 ++ "=" ++ e.2 ++ "&")),
    concatAll (l₂.map (fun e => e.1 ++ "=" ++ e.2 ++ "&")) ++ "key=" ++ k, ?_⟩
  rw [canonicalBase, hl, List.map_append, concatAll_append, List.map_cons, concatAll]
  simp only [String.append_assoc]

/-- C9 as amended: what the signing extractor passes over is a field whose wire
name is empty, not a field whose value is empty.  In a request struct whose
signable wire names are pairwise distinct, a string field that holds `""`,
declared in the struct or in a struct embedded in it at any depth, under a wire
name that is neither empty nor `sign`, has the entry `name -> ""` in the mapping
that `parseXMLTag` builds and the pair `name=&` in the base string that
`Client.sign` digests; and no key of the mapping is the empty string. -/
theorem empty_value_is_signed (c : Client) (ty : String) (fs : Fields) (tag : String)
    (hn : ((refEntries (.struct ty fs)).map Prod.fst).Nodup)
    (hd : hasField tag (.str "") (.struct ty fs) = true)
    (h1 : wireName tag ≠ "") (h2 : wireName tag ≠ "sign") :
    "" ∉ (parseXMLTag ⟨[], []⟩ (.struct ty fs)).1.keys ∧
      wireName tag ∈ (parseXMLTag ⟨[], []⟩ (.struct ty fs)).1.keys ∧
      (parseXMLTag ⟨[], []⟩ (.struct ty fs)).1.values.lookup (wireName tag) = some "" ∧
      ∃ pre post, signBase c (parseXMLTag ⟨[], []⟩ (.struct ty fs)).1 =
        pre ++ (wireName tag ++ "=&") ++ post := by
  have hmem : (wireName tag, "") ∈ refEntries (.struct ty fs) :=
    mem_refEntries_of_hasField tag "" h1 h2 _ hd
  refine ⟨?_, ?_, ?_, ?_⟩
  · rw [parseXMLTag_eq]
    simp only [List.nil_append, List.mem_map, not_exists, not_and]
    intro e he hname
    have := (List.mem_filter.1 he).2
    simp [hname] at this
  · rw [parseXMLTag_eq]
    simp only [List.nil_append]
    exact List.mem_map.2 ⟨_, hmem, rfl⟩
  · rw [parseXMLTag_eq]
    simp only [List.append_nil]
    exact (lookup_reverse_of_nodup _ hn _ _).2 hmem
  · rw [signBase_eq_canonicalBase c _ hn]
    obtain ⟨pre, post, h⟩ := canonicalBase_contains _ c.ApiKey _ hmem
    refine ⟨pre, post, ?_⟩
    rw [h]
    have e : wireName tag ++ "=" ++ "" ++ "&" = wireName tag ++ "=&" := by
      rw [String.append_empty, String.append_assoc]
      rfl
    simp only [e]

/-- C9 as amended, on two requests: the empty `refund_desc` that the refund
request declares itself, and the empty `sign_type` of the envelope that a
request embeds, are signed. -/
theorem empty_value_is_signed_witness :
    ("" ∉ (parseXMLTag ⟨[], []⟩ (.struct "RefundRequest" exampleRefundFields)).1.keys ∧
      wireName "refund_desc" ∈
        (parseXMLTag ⟨[], []⟩ (.struct "RefundRequest" exampleRefundFields)).1.keys ∧
      (parseXMLTag ⟨[], []⟩ (.struct "RefundRequest" exampleRefundFields)).1.values.lookup
        (wireName "refund_desc") = some "" ∧
      ∃ pre post,
        signBase exampleClient
            (parseXMLTag ⟨[], []⟩ (.struct "RefundRequest" exampleRefundFields)).1 =
          pre ++ (wireName "refund_desc" ++ "=&") ++ post) ∧
    ("" ∉ (parseXMLTag ⟨[], []⟩ (.struct "RefundRequest" exampleUnsignedFields)).1.keys ∧
      wireName "sign_type" ∈
        (parseXMLTag ⟨[], []⟩ (.struct "RefundRequest" exampleUnsignedFields)).1.keys ∧
      (parseXMLTag ⟨[], []⟩ (.struct "RefundRequest" exampleUnsignedFields)).1.values.lookup
        (wireName "sign_type") = some "" ∧
      ∃ pre post,
        signBase exampleClient
            (parseXMLTag ⟨[], []⟩ (.struct "RefundRequest" exampleUnsignedFields)).1 =
          pre ++ (wireName "sign_type" ++ "=&") ++ post) :=
  ⟨empty_value_is_signed exampleClient "RefundRequest" exampleRefundFields "refund_desc"
      (by decide) (by decide) (by decide) (by decide),
    empty_value_is_signed exampleClient "RefundRequest" exampleUnsignedFields "sign_type"
      (by decide) (by decide) (by decide) (by decide)⟩

/-- C9 as stated fails on the refund request of the specification: its
`refund_desc` holds the empty string, yet the mapping has the entry
`refund_desc -> ""` and the base string has the pair `refund_desc=&`. -/
theorem empty_value_skipped_counterexample :
    hasField "refund_desc" (.str "") exampleRefund = true ∧
      "refund_desc" ∈ (parseXMLTag ⟨[], []⟩ exampleRefund).1.keys ∧
      (parseXMLTag ⟨[], []⟩ exampleRefund).1.values.lookup "refund_desc" = some "" ∧
      signBase exampleClient (parseXMLTag ⟨[], []⟩ exampleRefund).1 =
        "appid=&mch_id=&out_refund_no=&out_trade_no=T1&refund_desc=&refund_fee=50&total_fee=100&key=K" := by
  decide

/-! ## Enrichment: proofs -/

theorem indicesOf_of_noField (name : String) :
    ∀ (fs : Fields) (k : Nat), noField name fs = true → fs.indicesOf name k = []
  | .nil, _, _ => by simp [Fields.indicesOf]
  | .named n _ _ rest, k, h => by
    simp only [noField, Bool.and_eq_true, decide_eq_true_eq] at h
    simp [Fields.indicesOf, h.1, indicesOf_of_noField name rest (k + 1) h.2]
  | .embedded n _ _ rest, k, h => by
    simp only [noField, Bool.and_eq_true, decide_eq_true_eq] at h
    simp [Fields.indicesOf, h.1, indicesOf_of_noField name rest (k + 1) h.2]

theorem directString_spec (name s : String) :
    ∀ (fs : Fields) (k : Nat), directString name fs = true →
      ∃ j, fs.indicesOf name k = [k + j] ∧
        setStringFields s true [j] fs = some (setDirect name s fs)
  | .nil, _, h => by simp [directString] at h
  | .embedded n t v rest, k, h => by
    simp only [directString, Bool.and_eq_true, decide_eq_true_eq] at h
    obtain ⟨j, hj, hset⟩ := directString_spec name s rest (k + 1) h.2
    refine ⟨j + 1, ?_, ?_⟩
    · simp [Fields.indicesOf, h.1, hj]; omega
    · simp [setStringFields, setDirect, hset]
  | .named n t v rest, k, h => by
    by_cases hn : n = name
    · simp only [directString, if_pos hn, Bool.and_eq_true] at h
      refine ⟨0, ?_, ?_⟩
      · simp [Fields.indicesOf, hn, indicesOf_of_noField name rest (k + 1) h.2]
      · cases v <;> simp_all [setStringFields, setDirect]
    · simp only [directString, if_neg hn] at h
      obtain ⟨j, hj, hset⟩ := directString_spec name s rest (k + 1) h
      refine ⟨j + 1, ?_, ?_⟩
      · simp [Fields.indicesOf, hn, hj]; omega
      · simp [setStringFields, setDirect, hn, hset]

theorem setFieldByName_of_directString (name s : String) (fs : Fields)
    (h : directString name fs = true) :
    setFieldByName true name s fs = some (setDirect name s fs) := by
  obtain ⟨j, hj, hset⟩ := directString_spec name s fs 0 h
  simp [setFieldByName, fieldByName, fieldByNameLevels, hj, hset]

theorem typeName_ptr_toValue (r : BaseRequest) : typeName (.ptr r.toValue) = reqType := by
  simp only [typeName, BaseRequest.toValue]
  decide

theorem noField_setDirect (m n s : String) :
    ∀ fs : Fields, noField m (setDirect n s fs) = noField m fs
  | .nil => rfl
  | .embedded _ _ _ rest => by simp [setDirect, noField, noField_setDirect m n s rest]
  | .named k _ _ rest => by
    by_cases hk : k = n
    · simp [setDirect, noField, hk]
    · simp [setDirect, noField, hk, noField_setDirect m n s rest]

theorem directString_setDirect (m n s : String) :
    ∀ fs : Fields, directString m fs = true → directString m (setDirect n s fs) = true
  | .nil, h => by simp [directString] at h
  | .embedded _ _ _ rest, h => by
    simp only [directString, Bool.and_eq_true, decide_eq_true_eq] at h
    simp [setDirect, directString, h.1, directString_setDirect m n s rest h.2]
  | .named k _ v rest, h => by
    by_cases hk : k = n
    · by_cases hm : k = m
      · simp only [directString, if_pos hm, Bool.and_eq_true] at h
        subst hk hm
        simp [setDirect, directString, h.2]
      · simp only [directString, if_neg hm] at h
        subst hk
        simp [setDirect, directString, hm, h]
    · by_cases hm : k = m
      · simp only [directString, if_pos hm, Bool.and_eq_true] at h
        subst hm
        simp only [setDirect, if_neg hk, directString, if_true, Bool.and_eq_true]
        exact ⟨h.1, by rw [noField_setDirect]; exact h.2⟩
      · simp only [directString, if_neg hm] at h
        simp [setDirect, directString, hk, hm, directString_setDirect m n s rest h]

theorem hasEnvelope_setDirect (n s : String) :
    ∀ fs : Fields, hasEnvelope (setDirect n s fs) = hasEnvelope fs
  | .nil => rfl
  | .embedded _ _ _ rest => by simp [setDirect, hasEnvelope, hasEnvelope_setDirect n s rest]
  | .named k _ _ rest => by
    by_cases hk : k = n
    · simp [setDirect, hasEnvelope, hk]
    · simp [setDirect, hasEnvelope, hk, hasEnvelope_setDirect n s rest]

theorem directValue_setDirect_self (n s : String) :
    ∀ fs : Fields, directString n fs = true → directValue n (setDirect n s fs) = some (.str s)
  | .nil, h => by simp [directString] at h
  | .embedded _ _ _ rest, h => by
    simp only [directString, Bool.and_eq_true, decide_eq_true_eq] at h
    simp [setDirect, directValue, directValue_setDirect_self n s rest h.2]
  | .named k _ _ rest, h => by
    by_cases hk : k = n
    · simp [setDirect, directValue, hk]
    · simp only [directString, if_neg hk] at h
      simp [setDirect, directValue, hk, directValue_setDirect_self n s rest h]

theorem directValue_setDirect_other (m n s : String) (hmn : m ≠ n) :
    ∀ fs : Fields, directValue m (setDirect n s fs) = directValue m fs
  | .nil => rfl
  | .embedded _ _ _ rest => by
    simp [setDirect, directValue, directValue_setDirect_other m n s hmn rest]
  | .named k _ _ rest => by
    by_cases hk : k = n
    · have hkm : ¬ n = m := fun h => hmn h.symm
      simp [setDirect, directValue, hk, hkm]
    · simp [setDirect, directValue, hk, directValue_setDirect_other m n s hmn rest]

theorem directValue_setEnvelope (m : String) (r : BaseRequest) :
    ∀ fs : Fields, directValue m (setEnvelope r fs) = directValue m fs
  | .nil => rfl
  | .named k _ _ rest => by simp [setEnvelope, directValue, directValue_setEnvelope m r rest]
  | .embedded _ _ v rest => by
    by_cases hv : typeName v = reqType
    · simp [setEnvelope, directValue, hv, directValue_setEnvelope m r rest]
    · simp [setEnvelope, directValue, hv, directValue_setEnvelope m r rest]

theorem setEnvelope_setEnvelope (r r' : BaseRequest) :
    ∀ fs : Fields, setEnvelope r' (setEnvelope r fs) = setEnvelope r' fs
  | .nil => rfl
  | .named _ _ _ rest => by simp [setEnvelope, setEnvelope_setEnvelope r r' rest]
  | .embedded _ _ v rest => by
    by_cases hv : typeName v = reqType
    · simp [setEnvelope, hv, typeName_ptr_toValue, setEnvelope_setEnvelope r r' rest]
    · simp [setEnvelope, hv, setEnvelope_setEnvelope r r' rest]

theorem envelopeOf_setEnvelope (r : BaseRequest) :
    ∀ fs : Fields, hasEnvelope fs = true →
      envelopeOf (setEnvelope r fs) = some (.ptr r.toValue)
  | .nil, h => by simp [hasEnvelope] at h
  | .named _ _ _ rest, h => by
    simp only [hasEnvelope] at h
    simp [setEnvelope, envelopeOf, envelopeOf_setEnvelope r rest h]
  | .embedded _ _ v rest, h => by
    by_cases hv : typeName v = reqType
    · simp [setEnvelope, envelopeOf, hv, typeName_ptr_toValue]
    · simp only [hasEnvelope, hv, decide_False, Bool.false_or] at h
      simp [setEnvelope, envelopeOf, hv, envelopeOf_setEnvelope r rest h]

theorem eqExceptSign_refl (v : Value) : eqExceptSign v v = true := by
  induction v using Value.rec (motive_2 := fun fs => eqExceptSignFields fs fs = true) <;>
    simp_all [eqExceptSign, eqExceptSignFields]

theorem eqExceptSignFields_refl (fs : Fields) : eqExceptSignFields fs fs = true := by
  have h := eqExceptSign_refl (.struct "" fs)
  simpa [eqExceptSign] using h

theorem eqExceptSign_toValue (r r' : BaseRequest) (h1 : r.SignType = r'.SignType)
    (h2 : r.NonceStr = r'.NonceStr) :
    eqExceptSign (.ptr r.toValue) (.ptr r'.toValue) = true := by
  have hw : wireName "sign" = "sign" := by decide
  simp [eqExceptSign, eqExceptSignFields, BaseRequest.toValue, hw, h1, h2]

theorem eqExceptSignFields_setEnvelope (r r' : BaseRequest) (h1 : r.SignType = r'.SignType)
    (h2 : r.NonceStr = r'.NonceStr) :
    ∀ fs : Fields, eqExceptSignFields (setEnvelope r fs) (setEnvelope r' fs) = true
  | .nil => rfl
  | .named _ _ _ rest => by
    simp [setEnvelope, eqExceptSignFields, eqExceptSignFields_setEnvelope r r' h1 h2 rest]
  | .embedded _ _ v rest => by
    by_cases hv : typeName v = reqType
    · simp [setEnvelope, hv, eqExceptSignFields, eqExceptSign_toValue r r' h1 h2,
        eqExceptSignFields_setEnvelope r r' h1 h2 rest]
    · simp [setEnvelope, hv, eqExceptSignFields, eqExceptSign_refl,
        eqExceptSignFields_setEnvelope r r' h1 h2 rest]

theorem refEntries_ptr_toValue (r : BaseRequest) :
    refEntries (.ptr r.toValue) = [("sign_type", r.SignType), ("nonce_str", r.NonceStr)] := by
  have h1 : wireName "xml" = "xml" := by decide
  have h2 : wireName "sign" = "sign" := by decide
  have h3 : wireName "sign_type" = "sign_type" := by decide
  have h4 : wireName "nonce_str" = "nonce_str" := by decide
  simp [refEntries, refEntriesFull, refFieldsFull, BaseRequest.toValue, scalarText, h1, h2,
    h3, h4]

theorem refFields_setEnvelope (r : BaseRequest) :
    ∀ fs : Fields, hasEnvelope fs = true →
      ∀ e ∈ refEntries (.ptr r.toValue), e ∈ refFields (setEnvelope r fs)
  | .nil, h => by simp [hasEnvelope] at h
  | .named n t v rest, h => by
    simp only [hasEnvelope] at h
    intro e he
    have ih := refFields_setEnvelope r rest h e he
    simp only [setEnvelope, refFields_named]
    by_cases hname : wireName t = "" ∨ wireName t = "sign"
    · simp only [if_pos hname]; exact ih
    · simp only [if_neg hname]
      cases scalarText v with
      | none => exact ih
      | some s => exact List.mem_cons_of_mem _ ih
  | .embedded _ _ v rest, h => by
    intro e he
    by_cases hv : typeName v = reqType
    · simp only [setEnvelope, if_pos hv, refFields_embedded]
      exact List.mem_append_left _ he
    · simp only [hasEnvelope, hv, decide_False, Bool.false_or] at h
      simp only [setEnvelope, if_neg hv, refFields_embedded]
      exact List.mem_append_right _ (refFields_setEnvelope r rest h e he)

theorem sign_congr (d : Digests) (c : Client) (v w : Value) (t : String)
    (h : eqExceptSign v w = true) : sign d c v t = sign d c w t := by
  simp only [sign, parseXMLTag_congr v w ⟨[], []⟩ h]

theorem injectFields_of_directString (c : Client) (req : BaseRequest) (fs : Fields)
    (hA : directString "AppID" fs = true) (hM : directString "MchID" fs = true) :
    injectFields c req true fs =
      some (setEnvelope req (setDirect "MchID" c.MchID (setDirect "AppID" c.AppID fs))) := by
  have hM' := directString_setDirect "MchID" "AppID" c.AppID fs hM
  simp [injectFields, setFieldByName_of_directString _ _ _ hA,
    setFieldByName_of_directString _ _ _ hM']

/-- C4: for a pointer to a request struct that declares the string fields
`AppID` and `MchID` and embeds a `*BaseRequest`, and every signature type `t`,
`Client.signRequest` returns a nil error, and in the request it leaves behind
the embedded envelope has a `NonceStr` of 32 characters, the `SignType` `t` and
as `Sign` the value that `Client.sign` computes over that same final request,
whose signed entries hold the new `nonce_str` and `sign_type` and whose `AppID`
and `MchID` hold the values of the client. -/
theorem signRequest_enriches (d : Digests) (c : Client) (rnd : Nat → Nat) (ty : String)
    (fs : Fields) (t : String)
    (hA : directString "AppID" fs = true) (hM : directString "MchID" fs = true)
    (hE : hasEnvelope fs = true) :
    ∃ final nonce sig,
      signRequest d c rnd (.ptr (.struct ty fs)) t = some (.ptr (.struct ty final), none) ∧
      envelopeOf final = some (.ptr (BaseRequest.toValue ⟨sig, t, nonce⟩)) ∧
      nonce.length = 32 ∧
      sign d c (.ptr (.struct ty final)) t = (sig, none) ∧
      ("nonce_str", nonce) ∈ refEntries (.ptr (.struct ty final)) ∧
      ("sign_type", t) ∈ refEntries (.ptr (.struct ty final)) ∧
      directValue "AppID" final = some (.str c.AppID) ∧
      directValue "MchID" final = some (.str c.MchID) := by
  obtain ⟨l, hl, hlen, _⟩ := getNonceStr_spec rnd
  have hE2 : hasEnvelope (setDirect "MchID" c.MchID (setDirect "AppID" c.AppID fs)) = true := by
    rw [hasEnvelope_setDirect, hasEnvelope_setDirect]; exact hE
  have hval : derefIsStruct (.ptr (.struct ty (setEnvelope ⟨"", t, String.mk l⟩
      (setDirect "MchID" c.MchID (setDirect "AppID" c.AppID fs))))) = true := rfl
  have hsig := sign_of_struct d c _ t hval
  have hcongr := sign_congr d c
    (.ptr (.struct ty (setEnvelope ⟨(sign d c (.ptr (.struct ty (setEnvelope ⟨"", t, String.mk l⟩
      (setDirect "MchID" c.MchID (setDirect "AppID" c.AppID fs))))) t).1, t, String.mk l⟩
      (setDirect "MchID" c.MchID (setDirect "AppID" c.AppID fs)))))
    (.ptr (.struct ty (setEnvelope ⟨"", t, String.mk l⟩
      (setDirect "MchID" c.MchID (setDirect "AppID" c.AppID fs))))) t
    (by
      simp only [eqExceptSign, decide_True, Bool.true_and]
      apply eqExceptSignFields_setEnvelope <;> rfl)
  refine ⟨setEnvelope ⟨(sign d c (.ptr (.struct ty (setEnvelope ⟨"", t, String.mk l⟩
      (setDirect "MchID" c.MchID (setDirect "AppID" c.AppID fs))))) t).1, t, String.mk l⟩
      (setDirect "MchID" c.MchID (setDirect "AppID" c.AppID fs)),
    String.mk l, _, ?_, envelopeOf_setEnvelope _ _ hE2, hlen, ?_, ?_, ?_, ?_, ?_⟩
  · simp only [signRequest, request, hl, Option.map_some', injectRequest, injectRequestFrom,
      injectFields_of_directString c _ fs hA hM, storeSign, setEnvelope_setEnvelope]
    rw [hsig]
  · rw [hcongr]
    rw [hsig]
  · rw [refEntries_ptr, refEntries_struct]
    exact refFields_setEnvelope _ _ hE2 _ (by simp [refEntries_ptr_toValue])
  · rw [refEntries_ptr, refEntries_struct]
    exact refFields_setEnvelope _ _ hE2 _ (by simp [refEntries_ptr_toValue])
  · rw [directValue_setEnvelope, directValue_setDirect_other _ _ _ (by decide)]
    exact directValue_setDirect_self _ _ _ hA
  · rw [directValue_setEnvelope]
    exact directValue_setDirect_self _ _ _ (directString_setDirect _ _ _ _ hM)

/-- C4 on the refund request of the specification (`out_trade_no` `T1`,
`total_fee` 100, `refund_fee` 50), enriched for `HMAC-SHA256`. -/
theorem signRequest_enriches_witness :
    (directString "AppID" exampleRefundFields = true ∧
      directString "MchID" exampleRefundFields = true ∧
      hasEnvelope exampleRefundFields = true) ∧
    ∃ final nonce sig,
      signRequest toyDigests exampleClient (fun i => i)
          (.ptr (.struct "RefundRequest" exampleRefundFields)) "HMAC-SHA256" =
        some (.ptr (.struct "RefundRequest" final), none) ∧
      envelopeOf final = some (.ptr (BaseRequest.toValue ⟨sig, "HMAC-SHA256", nonce⟩)) ∧
      nonce.length = 32 ∧
      sign toyDigests exampleClient (.ptr (.struct "RefundRequest" final)) "HMAC-SHA256" =
        (sig, none) ∧
      ("nonce_str", nonce) ∈ refEntries (.ptr (.struct "RefundRequest" final)) ∧
      ("sign_type", "HMAC-SHA256") ∈ refEntries (.ptr (.struct "RefundRequest" final)) ∧
      directValue "AppID" final = some (.str exampleClient.AppID) ∧
      directValue "MchID" final = some (.str exampleClient.MchID) :=
  ⟨by decide,
    signRequest_enriches toyDigests exampleClient (fun i => i) "RefundRequest"
      exampleRefundFields "HMAC-SHA256" (by decide) (by decide) (by decide)⟩

/-! ## Discarded errors -/

theorem derefIsStruct_of_injectRequestFrom (c : Client) (req : BaseRequest) (v : Value) :
    ∀ (addr : Bool) (w : Value), injectRequestFrom c req addr v = some w →
      derefIsStruct w = true := by
  induction v using Value.rec (motive_2 := fun _ => True) with
  | nonStruct ty => intro addr w h; simp [injectRequestFrom] at h
  | nilPtr p _ => intro addr w h; simp [injectRequestFrom] at h
  | struct ty fs _ =>
    intro addr w h
    simp only [injectRequestFrom, Option.map_eq_some'] at h
    obtain ⟨r, _, hr⟩ := h
    rw [← hr]; rfl
  | ptr v ih =>
    intro addr w h
    simp only [injectRequestFrom, Option.map_eq_some'] at h
    obtain ⟨u, hu, hw⟩ := h
    rw [← hw]
    exact ih true u hu
  | nil => trivial
  | named _ _ _ _ _ => trivial
  | embedded _ _ _ _ _ _ => trivial

/-- Whenever `Client.signRequest` returns, the error it returns is nil: on a
value that is no struct `injectRequest` panics before `Client.sign` is called. -/
theorem signRequest_error_nil (d : Digests) (c : Client) (rnd : Nat → Nat) (v : Value)
    (t : String) (r : Value × Option String) (h : signRequest d c rnd v t = some r) :
    r.2 = none := by
  simp only [signRequest] at h
  cases hreq : request rnd with
  | none => simp [hreq] at h
  | some req0 =>
    simp only [hreq] at h
    cases hinj : injectRequest c v { req0 with SignType := t } with
    | none => simp [hinj] at h
    | some val =>
      simp only [hinj, Option.some.injEq] at h
      have hs := derefIsStruct_of_injectRequestFrom c _ v false val hinj
      rw [← h, sign_of_struct d c val t hs]

theorem parseXMLTagFields_append :
    ∀ (a b : Fields) (lv : linkValues),
      parseXMLTagFields lv (a.append b) = parseXMLTagFields (parseXMLTagFields lv a) b
  | .nil, b, lv => by simp [Fields.append, parseXMLTagFields]
  | .embedded _ _ v rest, b, lv => by
    simp only [Fields.append, parseXMLTagFields]
    exact parseXMLTagFields_append rest b _
  | .named _ tag v rest, b, lv => by
    simp only [Fields.append, parseXMLTagFields]
    by_cases h : tagName tag = "" ∨ tagName tag = "sign"
    · simp only [if_pos h]
      exact parseXMLTagFields_append rest b lv
    · simp only [if_neg h]
      cases fieldStrValue v with
      | none => exact parseXMLTagFields_append rest b lv
      | some s => exact parseXMLTagFields_append rest b _

theorem parseXMLTag_of_not_struct (m : Value) (lv : linkValues)
    (h : derefIsStruct m = false) :
    (parseXMLTag lv m).2 ≠ none ∧ (parseXMLTag lv m).1 = lv := by
  constructor
  · simp [parseXMLTag_error, h]
  · rw [parseXMLTag_eq, refEntries_of_not_struct m h]
    simp

theorem parseXMLTagFields_skip_member (m : Value) (lv : linkValues) (n tg : String)
    (pre rest : Fields) (h : derefIsStruct m = false) :
    parseXMLTagFields lv (pre.append (.embedded n tg m rest)) =
      parseXMLTagFields lv (pre.append rest) := by
  rw [parseXMLTagFields_append, parseXMLTagFields_append, parseXMLTagFields,
    (parseXMLTag_of_not_struct m _ h).2]

theorem injectRequestFrom_of_not_struct (c : Client) (req : BaseRequest) (v : Value) :
    ∀ addr : Bool, derefIsStruct v = false → injectRequestFrom c req addr v = none := by
  induction v using Value.rec (motive_2 := fun _ => True) with
  | nonStruct ty => intro addr _; rfl
  | nilPtr p _ => intro addr _; rfl
  | struct ty fs _ => intro addr h; simp [derefIsStruct] at h
  | ptr v ih =>
    intro addr h
    simp only [derefIsStruct] at h
    simp [injectRequestFrom, ih true h]
  | nil => trivial
  | named _ _ _ _ _ => trivial
  | embedded _ _ _ _ _ _ => trivial

theorem signRequest_of_not_struct (d : Digests) (c : Client) (rnd : Nat → Nat) (v : Value)
    (t : String) (h : derefIsStruct v = false) : signRequest d c rnd v t = none := by
  simp only [signRequest]
  cases request rnd with
  | none => rfl
  | some req0 => simp [injectRequest, injectRequestFrom_of_not_struct c _ v false h]

/-- C7 as amended: a canonicalization error is reported for the value itself
only.  On a value that is not a struct once all pointers are followed,
`Client.sign` returns a non-nil error, `Client.signRequest` panics (inside
`injectRequest`) and so does `Client.send`, and `Client.format` returns an empty
map; on a struct `Client.sign` returns a nil error.  Whenever
`Client.signRequest` returns, its error is nil, and `Client.send`, which does not
look at it, hands the request to the serialiser.  An embedded member that is not
a struct once all pointers are followed makes the recursive call of the
extractor return an error that is discarded: the mapping is left as it was and
the loop goes on, so that a struct with such a member, at any position, gets the
mapping and the result of `Client.sign` of the struct without the member, with a
nil error.  A named field is dropped without an error when its wire name is
empty or `sign` or its type is not `string`, `int` or `time.Time`; every other
named field adds its entry. -/
theorem extraction_error_for_value_only (d : Digests) (c : Client) (rnd : Nat → Nat)
    (v : Value) (t : String) :
    (derefIsStruct v = false →
      (sign d c v t).2 ≠ none ∧ (signRequest d c rnd v t).isNone = true ∧
        (send d c rnd v).isNone = true ∧ format v = []) ∧
    (derefIsStruct v = true → (sign d c v t).2 = none) ∧
    (∀ r, signRequest d c rnd v t = some r → r.2 = none) ∧
    (∀ r, signRequest d c rnd v "HMAC-SHA256" = some r → send d c rnd v = some r.1) ∧
    (∀ (m : Value) (lv : linkValues) (ty n tg : String) (pre rest : Fields),
      derefIsStruct m = false →
        (parseXMLTag lv m).2 ≠ none ∧ (parseXMLTag lv m).1 = lv ∧
        parseXMLTagFields lv (pre.append (.embedded n tg m rest)) =
          parseXMLTagFields lv (pre.append rest) ∧
        sign d c (.struct ty (pre.append (.embedded n tg m rest))) t =
          sign d c (.struct ty (pre.append rest)) t ∧
        (sign d c (.struct ty (pre.append (.embedded n tg m rest))) t).2 = none) ∧
    (∀ (lv : linkValues) (n tg : String) (x : FieldValue) (rest : Fields),
      parseXMLTagFields lv (.named n tg x rest) =
        if wireName tg = "" ∨ wireName tg = "sign" ∨ scalarText x = none
        then parseXMLTagFields lv rest
        else parseXMLTagFields
          ⟨lv.keys ++ [wireName tg], (wireName tg, (scalarText x).getD "") :: lv.values⟩
          rest) := by
  refine ⟨?_, ?_, ?_, ?_, ?_, ?_⟩
  · intro h
    refine ⟨?_, ?_, ?_, ?_⟩
    · have e := parseXMLTag_error v ⟨[], []⟩
      rw [h] at e
      simp only [sign]
      generalize parseXMLTag ⟨[], []⟩ v = r at e
      obtain ⟨r1, r2⟩ := r
      simp at e
      subst e
      simp
    · simp [signRequest_of_not_struct d c rnd v t h]
    · simp [send, signRequest_of_not_struct d c rnd v "HMAC-SHA256" h]
    · have e := parseXMLTag2_error v ⟨[], []⟩
      rw [h] at e
      simp only [format]
      generalize parseXMLTag2 ⟨[], []⟩ v = r at e
      obtain ⟨r1, r2⟩ := r
      simp at e
      subst e
      rfl
  · intro h
    rw [sign_of_struct d c v t h]
  · intro r h
    exact signRequest_error_nil d c rnd v t r h
  · intro r h
    simp [send, h]
  · intro m lv ty n tg pre rest h
    have hskip := parseXMLTagFields_skip_member m ⟨[], []⟩ n tg pre rest h
    refine ⟨(parseXMLTag_of_not_struct m lv h).1, (parseXMLTag_of_not_struct m lv h).2,
      parseXMLTagFields_skip_member m lv n tg pre rest h, ?_, ?_⟩
    · simp only [sign, parseXMLTag, hskip]
    · rw [sign_of_struct d c (.struct ty (pre.append (.embedded n tg m rest))) t rfl]
  · intro lv n tg x rest
    rw [parseXMLTagFields, tagName_eq_wireName, fieldStrValue_eq_scalarText]
    by_cases h1 : wireName tg = "" ∨ wireName tg = "sign"
    · have h2 : wireName tg = "" ∨ wireName tg = "sign" ∨ scalarText x = none := by tauto
      simp only [if_pos h1, if_pos h2]
    · cases hs : scalarText x with
      | none => simp [h1]
      | some s =>
        have h2 : ¬ (wireName tg = "" ∨ wireName tg = "sign" ∨ some s = none) := by
          simpa using h1
        simp only [if_neg h1, if_neg h2, Option.getD_some]

/-- C7 as amended, on concrete values: a nil pointer to a refund request, the
request `exampleAudited`, and the nil `*Audit` that it embeds between its
envelope and its named fields. -/
theorem extraction_error_for_value_only_witness :
    ((sign toyDigests exampleClient (.nilPtr exampleRefund) "MD5").2 ≠ none ∧
      (signRequest toyDigests exampleClient (fun i => i) (.nilPtr exampleRefund)
        "MD5").isNone = true ∧
      (send toyDigests exampleClient (fun i => i) (.nilPtr exampleRefund)).isNone = true ∧
      format (.nilPtr exampleRefund) = []) ∧
    (sign toyDigests exampleClient exampleAudited "MD5").2 = none ∧
    ((parseXMLTag ⟨[], []⟩ exampleNilAudit).2 ≠ none ∧
      (parseXMLTag ⟨[], []⟩ exampleNilAudit).1 = ⟨[], []⟩ ∧
      parseXMLTagFields ⟨[], []⟩
          (exampleAuditedBefore.append (.embedded "Audit" "" exampleNilAudit
            exampleAuditedAfter)) =
        parseXMLTagFields ⟨[], []⟩ (exampleAuditedBefore.append exampleAuditedAfter) ∧
      sign toyDigests exampleClient
          (.struct "AuditedRefund" (exampleAuditedBefore.append
            (.embedded "Audit" "" exampleNilAudit exampleAuditedAfter))) "MD5" =
        sign toyDigests exampleClient
          (.struct "AuditedRefund" (exampleAuditedBefore.append exampleAuditedAfter)) "MD5" ∧
      (sign toyDigests exampleClient
          (.struct "AuditedRefund" (exampleAuditedBefore.append
            (.embedded "Audit" "" exampleNilAudit exampleAuditedAfter))) "MD5").2 = none) :=
  ⟨(extraction_error_for_value_only toyDigests exampleClient (fun i => i)
      (.nilPtr exampleRefund) "MD5").1 (by decide),
    (extraction_error_for_value_only toyDigests exampleClient (fun i => i)
      exampleAudited "MD5").2.1 (by decide),
    (extraction_error_for_value_only toyDigests exampleClient (fun i => i)
      exampleAudited "MD5").2.2.2.2.1 exampleNilAudit ⟨[], []⟩ "AuditedRefund" "Audit" ""
      exampleAuditedBefore exampleAuditedAfter (by decide)⟩

/-- C7 as stated fails on requests with an embedded member whose extraction
fails: the refund request with a nil `*BaseRequest` handed to `Client.sign`, and
a request with a nil `*Audit` handed to `Client.signRequest` and `Client.send`.
The extractor returns `must struct` for the member, yet `Client.sign` and
`Client.signRequest` return a nil error and `Client.send` hands the request to
the serialiser; on a nil pointer `Client.signRequest` panics instead of
returning an error. -/
theorem embedded_extraction_error_discarded :
    (parseXMLTag ⟨[], []⟩ (.nilPtr zeroBaseRequest)).2 = some "must struct" ∧
      (sign toyDigests exampleClient exampleRefund "MD5").2 = none ∧
      (sign toyDigests exampleClient exampleRefund "MD5").1 ≠ "" ∧
      (parseXMLTag ⟨[], []⟩ exampleNilAudit).2 = some "must struct" ∧
      (signRequest toyDigests exampleClient (fun i => i) (.ptr exampleAudited)
        "HMAC-SHA256").map Prod.snd = some none ∧
      (send toyDigests exampleClient (fun i => i) (.ptr exampleAudited)).isSome = true ∧
      (signRequest toyDigests exampleClient (fun i => i) (.nilPtr exampleRefund)
        "HMAC-SHA256").isNone = true := by
  decide

end Wxpay
